import Mathlib

/-!
Verification of the jianpu-to-MIDI compiler (midi_parser repository).

The Python sources under verification are: main.py (ScoreParser, build_midi),
utils.py (_beats, _norm_key, _degree2midi), parse_chord.py (Chord,
_parse_chord), reutils.py (the three token regexes) and chord_patterns.py
(the chord rhythm strategies and the get_chord_pattern factory).

The module constants.py is imported by the sources but is not part of the
available source tree; its tables are modelled from the specification
(480 ticks per quarter beat, the note-name table around middle C = 60,
the major-scale semitone table, the duration-letter table).

Python floats are modelled exactly by the fraction type PyQ below; every
float arising in this program is a small dyadic rational (or a rational
with a small denominator), for which IEEE float arithmetic is exact, so
exact fraction arithmetic is a faithful model.  Python int() truncation
toward zero and floor division are modelled explicitly.  Python
exceptions are modelled by an Except monad carrying an error kind.
-/

/-- Kinds of Python runtime errors that the modelled code can raise. -/
inductive PyError : Type
  | valueError
  | keyError
  | typeError
  | indexError
  | zeroDivisionError
  deriving DecidableEq, Repr

instance {ε α : Type} [DecidableEq ε] [DecidableEq α] : DecidableEq (Except ε α) :=
  fun x y =>
    match x, y with
    | .ok a, .ok b =>
        if h : a = b then .isTrue (by simp [h]) else .isFalse (by simp [h])
    | .error a, .error b =>
        if h : a = b then .isTrue (by simp [h]) else .isFalse (by simp [h])
    | .ok _, .error _ => .isFalse (by simp)
    | .error _, .ok _ => .isFalse (by simp)

/-- Exact fraction model of a Python float: an integer numerator over a
positive integer denominator.  Operations never normalize, so they are
kernel-computable; the semantic value is given by PyQ.toRat. -/
structure PyQ where
  num : Int
  den : Int
  dpos : 0 < den

/-- Semantic value of a modelled float. -/
def PyQ.toRat (a : PyQ) : ℚ := (a.num : ℚ) / (a.den : ℚ)

/-- The integer n as a modelled float. -/
def PyQ.ofInt (n : Int) : PyQ := ⟨n, 1, by omega⟩

/-- Fraction a / b as a modelled float (requires a positive denominator). -/
def PyQ.mk' (a : Int) (b : Int) (h : 0 < b) : PyQ := ⟨a, b, h⟩

/-- Addition of modelled floats. -/
def PyQ.add (a b : PyQ) : PyQ :=
  ⟨a.num * b.den + b.num * a.den, a.den * b.den, mul_pos a.dpos b.dpos⟩

/-- Subtraction of modelled floats. -/
def PyQ.sub (a b : PyQ) : PyQ :=
  ⟨a.num * b.den - b.num * a.den, a.den * b.den, mul_pos a.dpos b.dpos⟩

/-- Multiplication of modelled floats. -/
def PyQ.mul (a b : PyQ) : PyQ :=
  ⟨a.num * b.num, a.den * b.den, mul_pos a.dpos b.dpos⟩

/-- Negation of a modelled float. -/
def PyQ.neg (a : PyQ) : PyQ := ⟨-a.num, a.den, a.dpos⟩

/-- Strict order on modelled floats, by cross-multiplication. -/
def PyQ.lt (a b : PyQ) : Bool := a.num * b.den < b.num * a.den

/-- Non-strict order on modelled floats, by cross-multiplication. -/
def PyQ.le (a b : PyQ) : Bool := a.num * b.den ≤ b.num * a.den

/-- Semantic equality test on modelled floats, by cross-multiplication. -/
def PyQ.req (a b : PyQ) : Bool := a.num * b.den = b.num * a.den

theorem PyQ.toRat_ofInt (n : Int) : (PyQ.ofInt n).toRat = (n : ℚ) := by
  simp [PyQ.ofInt, PyQ.toRat]

theorem PyQ.toRat_add (a b : PyQ) : (a.add b).toRat = a.toRat + b.toRat := by
  have ha : ((a.den : ℚ)) ≠ 0 := by exact_mod_cast a.dpos.ne'
  have hb : ((b.den : ℚ)) ≠ 0 := by exact_mod_cast b.dpos.ne'
  simp only [PyQ.add, PyQ.toRat]
  push_cast
  field_simp

theorem PyQ.toRat_sub (a b : PyQ) : (a.sub b).toRat = a.toRat - b.toRat := by
  have ha : ((a.den : ℚ)) ≠ 0 := by exact_mod_cast a.dpos.ne'
  have hb : ((b.den : ℚ)) ≠ 0 := by exact_mod_cast b.dpos.ne'
  simp only [PyQ.sub, PyQ.toRat]
  push_cast
  field_simp
  ring

theorem PyQ.toRat_mul (a b : PyQ) : (a.mul b).toRat = a.toRat * b.toRat := by
  have ha : ((a.den : ℚ)) ≠ 0 := by exact_mod_cast a.dpos.ne'
  have hb : ((b.den : ℚ)) ≠ 0 := by exact_mod_cast b.dpos.ne'
  simp only [PyQ.mul, PyQ.toRat]
  push_cast
  field_simp

theorem PyQ.toRat_neg (a : PyQ) : a.neg.toRat = -a.toRat := by
  simp [PyQ.neg, PyQ.toRat, neg_div]

theorem PyQ.lt_iff (a b : PyQ) : a.lt b = true ↔ a.toRat < b.toRat := by
  have ha : (0 : ℚ) < (a.den : ℚ) := by exact_mod_cast a.dpos
  have hb : (0 : ℚ) < (b.den : ℚ) := by exact_mod_cast b.dpos
  simp only [PyQ.lt, PyQ.toRat, decide_eq_true_eq]
  rw [div_lt_div_iff₀ ha hb]
  constructor
  · intro h; exact_mod_cast h
  · intro h; exact_mod_cast h

theorem PyQ.le_iff (a b : PyQ) : a.le b = true ↔ a.toRat ≤ b.toRat := by
  have ha : (0 : ℚ) < (a.den : ℚ) := by exact_mod_cast a.dpos
  have hb : (0 : ℚ) < (b.den : ℚ) := by exact_mod_cast b.dpos
  simp only [PyQ.le, PyQ.toRat, decide_eq_true_eq]
  rw [div_le_div_iff₀ ha hb]
  constructor
  · intro h; exact_mod_cast h
  · intro h; exact_mod_cast h

theorem PyQ.req_iff (a b : PyQ) : a.req b = true ↔ a.toRat = b.toRat := by
  have ha : ((a.den : ℚ)) ≠ 0 := by
    exact_mod_cast a.dpos.ne'
  have hb : ((b.den : ℚ)) ≠ 0 := by
    exact_mod_cast b.dpos.ne'
  simp only [PyQ.req, PyQ.toRat, decide_eq_true_eq]
  rw [div_eq_div_iff ha hb]
  constructor
  · intro h; exact_mod_cast h
  · intro h; exact_mod_cast h

/-- Python int() truncation of a float toward zero. -/
def pyInt (q : PyQ) : Int := Int.tdiv q.num q.den

/-- Modelled from the spec: constants.py is missing from the source tree.
The spec fixes the resolution at 480 subdivisions per quarter-beat. -/
def TICKS_PER_BEAT : Int := 480

/-- Modelled from the spec: constants.py is missing from the source tree.
The chord channel number; no claim depends on its value. -/
def CHORD_CH : Nat := 1

/-- Modelled from the spec: constants.py is missing from the source tree.
The default chord velocity; no claim depends on its value. -/
def CHORD_VELOCITY : Nat := 64

/-- Modelled from the spec: constants.py is missing from the source tree.
Base MIDI value of each natural note letter in the melody register.  The
spec fixes middle C = 60; its end-to-end scenarios give C = 60 (degree 1
in C major is 60) and A = 57 (chord Am is rooted at 45 = 57 - 12). -/
def letterMidi : Char → Option Int
  | 'A' => some 57
  | 'B' => some 59
  | 'C' => some 60
  | 'D' => some 62
  | 'E' => some 64
  | 'F' => some 65
  | 'G' => some 67
  | _ => none

/-- Modelled from the spec: constants.py is missing from the source tree.
NOTE2MIDI maps a note name (letter with optional accidental) to its MIDI
value in the melody register; a sharp raises and a flat lowers the letter
value by one semitone. -/
def NOTE2MIDI (s : String) : Option Int :=
  match s.data with
  | [c] => letterMidi c
  | [c, a] =>
      (letterMidi c).bind fun v =>
        if a = '#' then some (v + 1) else if a = 'b' then some (v - 1) else none
  | _ => none

/-- Modelled from the spec: constants.py is missing from the source tree.
Major-scale semitone offsets, given in spec section 4.2. -/
def MAJOR_INTERVALS : List Int := [0, 2, 4, 5, 7, 9, 11]

/-- Modelled from the spec: constants.py is missing from the source tree.
Duration-letter table, given in spec section 4.2. -/
def DUR2BEAT (s : String) : Option PyQ :=
  if s = "w" then some (PyQ.ofInt 4)
  else if s = "h" then some (PyQ.ofInt 2)
  else if s = "q" then some (PyQ.ofInt 1)
  else if s = "e" then some (PyQ.mk' 1 2 (by omega))
  else if s = "s" then some (PyQ.mk' 1 4 (by omega))
  else if s = "t" then some (PyQ.mk' 1 8 (by omega))
  else none

/-- Value of a list of decimal digit characters. -/
def digitsVal (l : List Char) : Nat :=
  l.foldl (fun a c => a * 10 + (c.toNat - 48)) 0

/-- Python float() applied to a string: accepts an optional sign followed
by digits with an optional fractional part.  Returns none when the string
is not a numeric literal (Python raises ValueError there). -/
def pyFloat (s : String) : Option PyQ :=
  let cs := s.data
  let (sign, body) :=
    match cs with
    | '-' :: rest => ((-1 : Int), rest)
    | '+' :: rest => ((1 : Int), rest)
    | _ => ((1 : Int), cs)
  let intPart := body.takeWhile Char.isDigit
  let afterInt := body.drop intPart.length
  match afterInt with
  | [] =>
      if intPart = [] then none
      else some (PyQ.ofInt (sign * digitsVal intPart))
  | '.' :: fracChars =>
      let fracPart := fracChars.takeWhile Char.isDigit
      if fracChars.drop fracPart.length ≠ [] then none
      else if intPart = [] ∧ fracPart = [] then none
      else some (PyQ.mk'
        (sign * (digitsVal intPart * 10 ^ fracPart.length + digitsVal fracPart))
        (10 ^ fracPart.length) (by positivity))
  | _ => none

/-- Embedding of utils._beats: duration string, dots string and unit to a
beat count.  A duration starting with a slash goes through float(dur),
which fails on the slash character (Python raises ValueError); a letter
duration is looked up in DUR2BEAT (KeyError when absent); a nonempty dots
string multiplies by 1.5 when it is a single dot and by 1.75 otherwise. -/
def _beats (dur dots : String) (unit : PyQ) : Except PyError PyQ := do
  let b ←
    if dur = "" then pure unit
    else if dur.data.head? = some '/' then
      match pyFloat dur with
      | some x => pure (unit.mul x)
      | none => throw PyError.valueError
    else
      match DUR2BEAT dur with
      | some d => pure (d.mul unit)
      | none => throw PyError.keyError
  pure (if dots = "" then b
        else if dots = "." then b.mul (PyQ.mk' 3 2 (by omega))
        else b.mul (PyQ.mk' 7 4 (by omega)))

/-- Error component of a modelled Python result, if any. -/
def errOf {α : Type} : Except PyError α → Option PyError
  | .error e => some e
  | .ok _ => none

/-- Embedding of Python list indexing with negative wrap-around. -/
def pyListGet (l : List Int) (i : Int) : Except PyError Int :=
  let j := if i < 0 then i + l.length else i
  match l.get? j.toNat with
  | some v => if 0 ≤ j then Except.ok v else Except.error PyError.indexError
  | none => Except.error PyError.indexError

/-- Embedding of utils._degree2midi: root lookup, major-scale semitone for
the scale degree, accidental offset, octave shift. -/
def _degree2midi (deg : Int) (acc : String) (octShift : Int) (keyRoot : String) :
    Except PyError Int := do
  match NOTE2MIDI keyRoot with
  | none => throw PyError.keyError
  | some root =>
      let sem ← pyListGet MAJOR_INTERVALS (deg - 1)
      let accOff : Int := if acc = "#" then 1 else if acc = "b" then -1 else 0
      pure (root + sem + accOff + 12 * octShift)

example : (_beats "" "" (PyQ.ofInt 1)).map PyQ.num = Except.ok 1 := by decide
example : errOf (_beats "/4" "" (PyQ.ofInt 1)) = some PyError.valueError := by
  decide
example : (_beats "h" "." (PyQ.ofInt 1)).map (fun q => q.req (PyQ.ofInt 3)) =
    Except.ok true := by decide
example : (_beats "w" ".." (PyQ.ofInt 1)).map (fun q => q.req (PyQ.ofInt 7)) =
    Except.ok true := by decide
example : _degree2midi 1 "" 0 "C" = Except.ok 60 := by decide
example : _degree2midi 3 "" 0 "C" = Except.ok 64 := by decide
example : pyInt (PyQ.mk' 7 2 (by omega)) = 3 := by decide

/-- The apostrophe character (octave-up marker in the note grammar). -/
def apoChar : Char := Char.ofNat 39

/-- Upper-cased string, modelling Python str.upper on the ASCII letters
that occur in this grammar. -/
def strUpper (s : String) : String := String.mk (s.data.map Char.toUpper)

/-- Lower-cased string, modelling Python str.lower on the ASCII letters
that occur in this grammar. -/
def strLower (s : String) : String := String.mk (s.data.map Char.toLower)

/-- Whitespace-stripped string, modelling Python str.strip. -/
def strStrip (s : String) : String :=
  String.mk (((s.data.dropWhile Char.isWhitespace).reverse.dropWhile
    Char.isWhitespace).reverse)

/-- Embedding of the root-extraction step of parse_chord._parse_chord:
first character upper-cased, extended by a following sharp or flat sign.
Returns the root name and the remaining quality characters. -/
def chordRootSplit (cs : List Char) : String × List Char :=
  match cs with
  | [] => ("", [])
  | c :: rest =>
      match rest with
      | a :: rest2 =>
          if a = '#' ∨ a = 'b' then (String.mk [c.toUpper, a], rest2)
          else (String.mk [c.toUpper], rest)
      | [] => (String.mk [c.toUpper], [])

/-- Embedding of the quality-suffix table of parse_chord._parse_chord, in
source order.  Returns none when no branch matches (the source then keeps
the default major-triad intervals). -/
def qualIntervals (qual : String) : Option (List Int) :=
  if qual = "m" then some [0, 3, 7]
  else if qual = "aug" ∨ qual = "+" then some [0, 4, 8]
  else if qual = "dim" ∨ qual = "o" ∨ qual = "°" then some [0, 3, 6]
  else if qual = "sus4" then some [0, 5, 7]
  else if qual = "sus2" then some [0, 2, 7]
  else if qual = "7" then some [0, 4, 7, 10]
  else if qual = "m7" ∨ qual = "min7" then some [0, 3, 7, 10]
  else if qual = "maj7" ∨ qual = "M7" then some [0, 4, 7, 11]
  else if qual = "m7b5" ∨ qual = "ø" then some [0, 3, 6, 10]
  else if qual = "dim7" ∨ qual = "o7" ∨ qual = "°7" then some [0, 3, 6, 9]
  else if qual = "6" then some [0, 4, 7, 9]
  else if qual = "m6" then some [0, 3, 7, 9]
  else if qual = "9" ∨ qual = "7(9)" then some [0, 4, 7, 10, 14]
  else none

/-- Embedding of parse_chord._parse_chord: the symbol O (case-insensitive)
resolves to the empty pitch list; otherwise the stripped symbol is split
into root and quality, the root is looked up in NOTE2MIDI (ValueError when
absent), the root pitch is placed one octave below the melody register,
and the quality suffix selects an interval set, defaulting to the major
triad. -/
def _parse_chord (sym : String) : Except PyError (List Int) :=
  if strUpper sym = "O" then Except.ok []
  else
    let sym2 := strStrip sym
    match sym2.data with
    | [] => Except.error PyError.indexError
    | cs =>
        let (root, qualChars) := chordRootSplit cs
        match NOTE2MIDI root with
        | none => Except.error PyError.valueError
        | some rv =>
            let rootPitch := rv - 12
            let qual := strLower (String.mk qualChars)
            let intervals := (qualIntervals qual).getD [0, 4, 7]
            Except.ok (intervals.map (fun iv => rootPitch + iv))

/-- Embedding of Chord.getitem (the while loop of parse_chord.Chord):
repeatedly subtracts the chord length, adding an octave (12 semitones) per
wrap.  The Python loop diverges on an empty chord with a non-negative
index; that branch is modelled as an error and is excluded by claim C7
and unreachable in the strategies, which return early on empty chords. -/
def chordGetLoop (notes : List Int) : Nat → Int → Except PyError Int
  | 0, _ => Except.error PyError.indexError
  | fuel + 1, item =>
      if item < (notes.length : Int) then
        pyListGet notes item
      else if notes.length = 0 then
        Except.error PyError.indexError
      else
        (chordGetLoop notes fuel (item - notes.length)).map (fun v => v + 12)

/-- Embedding of Chord.getitem, with the fuel bound item + 1, which the
loop can never exhaust because every iteration decreases the index by the
chord length, at least one. -/
def chordGetItem (notes : List Int) (item : Int) : Except PyError Int :=
  chordGetLoop notes (item.toNat + 1) item

/-- A matched note token: the six capture groups of reutils._NOTE_RE. -/
structure NoteTok where
  deg : Nat
  acc : String
  oct : String
  dur : String
  dots : String
  tie : Bool
  deriving DecidableEq, Repr

/-- A matched rest token: the capture groups of reutils._REST_RE. -/
structure RestTok where
  dur : String
  dots : String
  deriving DecidableEq, Repr

/-- Parse of the optional duration group, a duration letter or a slash
followed by at least one digit; returns the matched group (empty when the
group is absent) and the remaining characters. -/
def parseDurGroup : List Char → String × List Char
  | [] => ("", [])
  | c :: rest =>
      if c = 'w' ∨ c = 'h' ∨ c = 'q' ∨ c = 'e' ∨ c = 's' ∨ c = 't' then
        (String.mk [c], rest)
      else if c = '/' then
        let ds := rest.takeWhile Char.isDigit
        if ds = [] then ("", c :: rest)
        else (String.mk ('/' :: ds), rest.drop ds.length)
      else ("", c :: rest)

/-- Embedding of reutils._NOTE_RE as a deterministic matcher.  The regex
components (degree, optional accidental, octave-marker run, optional
duration, dot run, optional tie, end of string) have pairwise disjoint
leading characters, so the greedy left-to-right parse matches exactly the
strings the anchored regex accepts. -/
def noteMatch (t : String) : Option NoteTok :=
  match t.data with
  | [] => none
  | c :: rest =>
      if '1' ≤ c ∧ c ≤ '7' then
        let deg := c.toNat - 48
        let (acc, r1) :=
          match rest with
          | a :: r => if a = '#' ∨ a = 'b' then (String.mk [a], r) else ("", rest)
          | [] => ("", ([] : List Char))
        let octChars := r1.takeWhile (fun d => d = apoChar ∨ d = ',')
        let r2 := r1.drop octChars.length
        let (dur, r3) := parseDurGroup r2
        let dotsChars := r3.takeWhile (fun d => d = '.')
        let r4 := r3.drop dotsChars.length
        let (tie, r5) :=
          match r4 with
          | d :: r => if d = '^' then (true, r) else (false, r4)
          | [] => (false, ([] : List Char))
        if r5 = [] then
          some ⟨deg, acc, String.mk octChars, dur, String.mk dotsChars, tie⟩
        else none
      else none

/-- Embedding of reutils._REST_RE as a deterministic matcher: R or 0, an
optional duration group, a dot run, end of string. -/
def restMatch (t : String) : Option RestTok :=
  match t.data with
  | [] => none
  | c :: rest =>
      if c = 'R' ∨ c = '0' then
        let (dur, r1) := parseDurGroup rest
        let dotsChars := r1.takeWhile (fun d => d = '.')
        let r2 := r1.drop dotsChars.length
        if r2 = [] then some ⟨dur, String.mk dotsChars⟩ else none
      else none

/-- Embedding of reutils._CHORD_RE: a letter A to G in either case
followed by any characters none of which is a slash (the optional
accidental alternative is subsumed because the accidental characters are
themselves non-slash), or the single letter O. -/
def isChordTok (t : String) : Bool :=
  (match t.data with
   | c :: rest =>
       ((65 ≤ c.toNat && c.toNat ≤ 71) || (97 ≤ c.toNat && c.toNat ≤ 103)) &&
         rest.all (fun d => d != '/')
   | [] => false) ||
  t == "O"

example : _parse_chord "o" = Except.ok [] := by decide
example : _parse_chord "Cm" = Except.ok [48, 51, 55] := by decide
example : _parse_chord "Am" = Except.ok [45, 48, 52] := by decide
example : _parse_chord "C" = Except.ok [48, 52, 55] := by decide
example : _parse_chord "Hm" = Except.error PyError.valueError := by decide
example : _parse_chord "Cxyz" = Except.ok [48, 52, 55] := by decide
example : chordGetItem [48, 52, 55] 4 = Except.ok 64 := by decide
example : noteMatch "1" = some ⟨1, "", "", "", "", false⟩ := by decide
example : (noteMatch "5#,,h..^").isSome = true := by decide
example : noteMatch "1^w" = none := by decide
example : restMatch "Rq." = some ⟨"q", "."⟩ := by decide
example : isChordTok "C#m7" = true := by decide
example : isChordTok "O" = true := by decide
example : isChordTok "o" = false := by decide
example : isChordTok "1" = false := by decide

/-- Kind of a sequenced event. -/
inductive EvKind : Type
  | on
  | off
  | programChange
  | meta
  deriving DecidableEq, Repr

/-- One sequenced message: kind, channel, pitch, velocity and delta-time
since the previous message on the same track. -/
structure MidiMsg where
  kind : EvKind
  channel : Nat
  note : Int
  velocity : Int
  time : Int
  deriving DecidableEq, Repr

/-- Onset message on the chord channel. -/
def mkOn (note vel t : Int) : MidiMsg := ⟨EvKind.on, CHORD_CH, note, vel, t⟩

/-- Release message on the chord channel (velocity 0, as in the source). -/
def mkOff (note t : Int) : MidiMsg := ⟨EvKind.off, CHORD_CH, note, 0, t⟩

/-- Onset block where the first message carries delta dt and the rest
carry delta rest (0 for simultaneous chords, the strum interval for
strummed chords). -/
def onsStrum (vel dt rest : Int) : List Int → List MidiMsg
  | [] => []
  | n :: ns => mkOn n vel dt :: ns.map (fun m => mkOn m vel rest)

/-- Release block where the first message carries delta dt and the rest
carry delta 0. -/
def offsFirst (dt : Int) : List Int → List MidiMsg
  | [] => []
  | n :: ns => mkOff n dt :: ns.map (fun m => mkOff m 0)

/-- Stable ascending insertion of an integer into a sorted list. -/
def insertSorted (x : Int) : List Int → List Int
  | [] => [x]
  | y :: ys => if x ≤ y then x :: y :: ys else y :: insertSorted x ys

/-- Stable ascending sort, modelling Python sorted on integers. -/
def sortInts (l : List Int) : List Int := l.foldr insertSorted []

/-- Python list slice l[:n], which counts from the end when n is
negative. -/
def pyTake (l : List α) (n : Int) : List α :=
  if 0 ≤ n then l.take n.toNat else l.take ((l.length : Int) + n).toNat

/-- List repetition with a natural count. -/
def listRepeat (l : List α) : Nat → List α
  | 0 => []
  | k + 1 => l ++ listRepeat l k

/-- Python list repetition l * k, empty for non-positive k. -/
def listRepeatInt (l : List α) (k : Int) : List α := listRepeat l k.toNat

/-- Embedding of BlockChordPattern.generate_events: all pitches start
together after the clamped gap and release together after the clamped
duration. -/
def blockGenerate (velocity : Int) (chordNotes : List Int)
    (startTick durationTicks lastTick : Int) : List MidiMsg × Int :=
  if chordNotes = [] then ([], lastTick)
  else
    let dt := max 0 (startTick - lastTick)
    let dur := max 1 durationTicks
    (onsStrum velocity dt 0 chordNotes ++ offsFirst dur chordNotes,
     startTick + dur)

/-- Onset and release pairs of ArpeggioChordPattern: each pitch sounds for
the integer-division share of the duration; the first onset carries the
initial gap. -/
def arpPairs (vel singleDur : Int) : Int → List Int → List MidiMsg
  | _, [] => []
  | t, n :: ns => mkOn n vel t :: mkOff n singleDur :: arpPairs vel singleDur 0 ns

/-- Embedding of ArpeggioChordPattern.generate_events. -/
def arpeggioGenerate (velocity : Int) (chordNotes : List Int)
    (startTick durationTicks lastTick : Int) : List MidiMsg × Int :=
  if chordNotes = [] then ([], lastTick)
  else
    let dt := max 0 (startTick - lastTick)
    let dur := max 1 durationTicks
    let single := Int.fdiv dur chordNotes.length
    (arpPairs velocity single dt chordNotes,
     startTick + (chordNotes.length : Int) * single)

/-- Embedding of GuitarStrumsPattern.generate_events: sorted pitches with
strum-spaced onsets and simultaneous releases. -/
def guitarGenerate (velocity : Int) (strumDuration : PyQ) (chordNotes : List Int)
    (startTick durationTicks lastTick : Int) : List MidiMsg × Int :=
  if chordNotes = [] then ([], lastTick)
  else
    let dt := max 0 (startTick - lastTick)
    let dur := max 1 durationTicks
    let sorted := sortInts chordNotes
    let n : Int := sorted.length
    let strumTicks := pyInt (strumDuration.mul (PyQ.ofInt TICKS_PER_BEAT))
    let totalStrum := if 1 < n then strumTicks * (n - 1) else 0
    let noteDuration := max 1 (dur - totalStrum)
    (onsStrum velocity dt strumTicks sorted ++ offsFirst noteDuration sorted,
     startTick + dur)

/-- Embedding of the pattern-index tables of
RhythmicArpeggioPattern.generate_events, selected by time signature and
chord size. -/
def rhythmicPatternIdx (num den : Int) (len : Nat) : List Nat :=
  if len = 3 then
    if num = 4 ∧ den = 4 then [0, 1, 2, 1, 2, 1, 2, 3]
    else if num = 3 ∧ den = 4 then [0, 1, 2, 0, 1, 2]
    else if num = 6 ∧ den = 8 then [0, 2, 1, 0, 2, 1]
    else if num = 2 ∧ den = 4 then [0, 1, 0, 2]
    else listRepeatInt [0, 1, 2] (Int.fdiv (num * 2) 3)
  else if len = 4 then
    if num = 4 ∧ den = 4 then [0, 1, 2, 3, 0, 1, 2, 3]
    else if num = 3 ∧ den = 4 then [0, 1, 2, 0, 3, 2]
    else if num = 6 ∧ den = 8 then [0, 3, 1, 0, 2, 3]
    else if num = 2 ∧ den = 4 then [0, 3, 1, 2]
    else listRepeatInt [0, 1, 2, 3] (Int.fdiv num 2)
  else
    pyTake (listRepeatInt (List.range len) (Int.fdiv (num * 2) (max 1 len)))
      (num * 2)

/-- Onset and release pairs of RhythmicArpeggioPattern: one pair per
pattern index, resolving each index through the wrapping chord access;
the final pair sustains for the remaining ticks. -/
def rhythmicPairs (vel unitTicks remaining : Int) (notes : List Int) :
    Int → List Nat → Except PyError (List MidiMsg)
  | _, [] => Except.ok []
  | t, idx :: rest => do
      let note ← chordGetItem notes (idx : Int)
      let offT := if rest = [] then remaining else unitTicks
      let tail ← rhythmicPairs vel unitTicks remaining notes 0 rest
      pure (mkOn note vel t :: mkOff note offT :: tail)

/-- Embedding of RhythmicArpeggioPattern.generate_events. -/
def rhythmicGenerate (velocity : Int) (timeSignature : Int × Int)
    (chordNotes : List Int) (startTick durationTicks lastTick : Int) :
    Except PyError (List MidiMsg × Int) :=
  if chordNotes = [] then Except.ok ([], lastTick)
  else
    let dt := max 0 (startTick - lastTick)
    let dur := max 1 durationTicks
    let idx0 := rhythmicPatternIdx timeSignature.1 timeSignature.2 chordNotes.length
    let patternIdx := if idx0 = [] then [0] else idx0
    let totalNotes : Int := patternIdx.length
    let unitTicks := Int.fdiv dur totalNotes
    let remaining := max 1 (dur - (totalNotes - 1) * unitTicks)
    (rhythmicPairs velocity unitTicks remaining chordNotes dt patternIdx).map
      (fun evs => (evs, startTick + (totalNotes - 1) * unitTicks + remaining))

/-- One stroke of an AdvancedGuitarPattern rhythm: direction (down, up,
block, mute or rest), note-selection rule (full, bass, high, root, chord
tones) and velocity adjustment. -/
structure Stroke where
  dir : Char
  sel : Char
  velAdj : Int
  deriving DecidableEq, Repr

/-- The 4/4 basic preset of AdvancedGuitarPattern.RHYTHM_PATTERNS. -/
def advPat44basic : List Stroke :=
  [⟨'d', 'f', 0⟩, ⟨'u', 'f', -10⟩, ⟨'d', 'f', 0⟩, ⟨'u', 'f', -10⟩,
   ⟨'d', 'f', 0⟩, ⟨'u', 'f', -10⟩, ⟨'d', 'f', 0⟩, ⟨'u', 'f', -10⟩]

/-- The 4/4 folk preset. -/
def advPat44folk : List Stroke :=
  [⟨'d', 'f', 0⟩, ⟨'u', 'h', -10⟩, ⟨'d', 'f', -5⟩, ⟨'u', 'f', -10⟩,
   ⟨'d', 'f', 0⟩, ⟨'u', 'h', -10⟩, ⟨'d', 'f', -5⟩, ⟨'u', 'f', -10⟩]

/-- The 4/4 rock preset (contains one muted stroke). -/
def advPat44rock : List Stroke :=
  [⟨'d', 'f', 5⟩, ⟨'u', 'h', -5⟩, ⟨'d', 'f', 0⟩, ⟨'d', 'b', -5⟩,
   ⟨'u', 'f', -10⟩, ⟨'d', 'f', 0⟩, ⟨'m', 'f', -15⟩, ⟨'u', 'h', -10⟩]

/-- The 4/4 ballad preset (contains rest strokes). -/
def advPat44ballad : List Stroke :=
  [⟨'d', 'f', 0⟩, ⟨'-', 'f', 0⟩, ⟨'u', 'h', -15⟩, ⟨'-', 'f', 0⟩,
   ⟨'d', 'b', -5⟩, ⟨'-', 'f', 0⟩, ⟨'u', 'h', -15⟩, ⟨'-', 'f', 0⟩]

/-- The 4/4 country preset. -/
def advPat44country : List Stroke :=
  [⟨'d', 'b', 0⟩, ⟨'u', 'h', -10⟩, ⟨'d', 'f', -5⟩, ⟨'u', 'f', -10⟩,
   ⟨'d', 'b', 0⟩, ⟨'u', 'h', -10⟩, ⟨'d', 'f', -5⟩, ⟨'u', 'f', -10⟩]

/-- The 3/4 basic preset. -/
def advPat34basic : List Stroke :=
  [⟨'d', 'f', 0⟩, ⟨'u', 'f', -10⟩, ⟨'u', 'h', -5⟩,
   ⟨'d', 'f', 0⟩, ⟨'u', 'f', -10⟩, ⟨'u', 'h', -5⟩]

/-- The 3/4 waltz preset. -/
def advPat34waltz : List Stroke :=
  [⟨'d', 'f', 5⟩, ⟨'u', 'h', -15⟩, ⟨'u', 'h', -10⟩,
   ⟨'d', 'f', 5⟩, ⟨'u', 'h', -15⟩, ⟨'u', 'h', -10⟩]

/-- The 3/4 folk preset. -/
def advPat34folk : List Stroke :=
  [⟨'d', 'f', 0⟩, ⟨'u', 'h', -10⟩, ⟨'d', 'b', -5⟩,
   ⟨'d', 'f', 0⟩, ⟨'u', 'h', -10⟩, ⟨'d', 'b', -5⟩]

/-- The 6/8 basic preset. -/
def advPat68basic : List Stroke :=
  [⟨'d', 'f', 0⟩, ⟨'u', 'h', -10⟩, ⟨'d', 'b', -5⟩,
   ⟨'u', 'f', -5⟩, ⟨'d', 'h', -10⟩, ⟨'u', 'f', -5⟩]

/-- The 6/8 folk preset. -/
def advPat68folk : List Stroke :=
  [⟨'d', 'f', 0⟩, ⟨'u', 'h', -5⟩, ⟨'u', 'h', -10⟩,
   ⟨'d', 'b', 0⟩, ⟨'u', 'h', -5⟩, ⟨'u', 'h', -10⟩]

/-- The 6/8 irish preset. -/
def advPat68irish : List Stroke :=
  [⟨'d', 'f', 5⟩, ⟨'u', 'h', -5⟩, ⟨'d', 'b', 0⟩,
   ⟨'u', 'f', 0⟩, ⟨'d', 'h', -5⟩, ⟨'u', 'f', -10⟩]

/-- The 2/4 basic preset. -/
def advPat24basic : List Stroke :=
  [⟨'d', 'f', 0⟩, ⟨'u', 'f', -10⟩, ⟨'d', 'f', 0⟩, ⟨'u', 'f', -10⟩]

/-- The 2/4 march preset. -/
def advPat24march : List Stroke :=
  [⟨'d', 'f', 5⟩, ⟨'u', 'h', -10⟩, ⟨'d', 'b', 0⟩, ⟨'u', 'h', -10⟩]

/-- Style table of AdvancedGuitarPattern.RHYTHM_PATTERNS for one time
signature key, or none when the key is absent.  The f-string key num_den
is in bijection with the integer pair, so the lookup is modelled on the
pair directly. -/
def advStylesFor (num den : Int) : Option (List (String × List Stroke)) :=
  if num = 4 ∧ den = 4 then
    some [("basic", advPat44basic), ("folk", advPat44folk),
          ("rock", advPat44rock), ("ballad", advPat44ballad),
          ("country", advPat44country)]
  else if num = 3 ∧ den = 4 then
    some [("basic", advPat34basic), ("waltz", advPat34waltz),
          ("folk", advPat34folk)]
  else if num = 6 ∧ den = 8 then
    some [("basic", advPat68basic), ("folk", advPat68folk),
          ("irish", advPat68irish)]
  else if num = 2 ∧ den = 4 then
    some [("basic", advPat24basic), ("march", advPat24march)]
  else none

/-- First value bound to the key in an association list. -/
def assocLookup (key : String) : List (String × α) → Option α
  | [] => none
  | (k, v) :: rest => if k = key then some v else assocLookup key rest

/-- Preset-table part of AdvancedGuitarPattern.init pattern selection. -/
def advGuitarInitPattern2 (timeSignature : Int × Int) (rhythmStyle : String) :
    List Stroke :=
  let (num, den) := timeSignature
  match advStylesFor num den with
  | some styles => (assocLookup rhythmStyle styles).getD advPat44basic
  | none =>
      let base := advPat44basic
      let patternLen : Int := base.length
      let targetLen := num * 2
      if targetLen < patternLen then pyTake base targetLen
      else if patternLen < targetLen then
        let repeats := Int.fdiv targetLen patternLen +
          (if 0 < Int.fmod targetLen patternLen then 1 else 0)
        pyTake (listRepeatInt base repeats) targetLen
      else base

/-- Embedding of AdvancedGuitarPattern.init pattern selection: a truthy
custom pattern wins; else the preset for the time signature and style
(falling back to that signature's basic style); else the basic 4/4
pattern stretched or truncated to numerator times 2 slots. -/
def advGuitarInitPattern (timeSignature : Int × Int) (rhythmStyle : String)
    (customPattern : Option (List Stroke)) : List Stroke :=
  match customPattern with
  | some p =>
      if p ≠ [] then p
      else advGuitarInitPattern2 timeSignature rhythmStyle
  | none => advGuitarInitPattern2 timeSignature rhythmStyle

/-- Note selection of one AdvancedGuitarPattern stroke, applied to the
sorted chord notes: bass = two lowest, high = three highest, root =
minimum, chord = all but the lowest, anything else = all. -/
def advSelect (sel : Char) (notes : List Int) : List Int :=
  if sel = 'b' then
    match notes with
    | [] => []
    | _ => (sortInts notes).take (min 2 notes.length)
  else if sel = 'h' then
    match notes with
    | [] => []
    | _ => (sortInts notes).drop (notes.length - min 3 notes.length)
  else if sel = 'r' then
    match notes with
    | [] => []
    | x :: xs => [xs.foldl min x]
  else if sel = 'c' then
    if notes.length ≤ 1 then [] else (sortInts notes).drop 1
  else notes

/-- Per-stroke loop of AdvancedGuitarPattern.generate_events: selected
notes (reversed for up-strokes) sound strum-spaced, sustain to the slot
length (or the fixed short mute length), and release together; the
returned integer is the total of the emitted delta-times plus mute
overhangs, which the source adds to the running clock. -/
def advLoop (vel strumTime unitTicks lastUnitTicks : Int) (notes : List Int) :
    List Stroke → Int → List MidiMsg × Int
  | [], _ => ([], 0)
  | stroke :: rest, dtHead =>
      let sorted := sortInts notes
      let selected := advSelect stroke.sel sorted
      let toPlay := if stroke.dir = 'u' then selected.reverse else selected
      let isMuted := stroke.dir = 'm'
      let v := max 1 (min 127 (vel + stroke.velAdj))
      let thisUnit := if rest = [] then lastUnitTicks else unitTicks
      let onEvs := onsStrum v dtHead strumTime toPlay
      let onSum := if toPlay = [] then 0
        else dtHead + strumTime * ((toPlay.length : Int) - 1)
      let sustain := if isMuted then Int.fdiv TICKS_PER_BEAT 16
        else max 0 (thisUnit - onSum)
      let used := onSum + sustain
      let offEvs := offsFirst sustain toPlay
      let (restEvs, restUsed) :=
        advLoop vel strumTime unitTicks lastUnitTicks notes rest 0
      (onEvs ++ offEvs ++ restEvs, used + restUsed)

/-- Embedding of AdvancedGuitarPattern.generate_events. -/
def advGuitarGenerate (velocity : Int) (strumDuration : PyQ)
    (pattern : List Stroke) (chordNotes : List Int)
    (startTick durationTicks lastTick : Int) : List MidiMsg × Int :=
  if chordNotes = [] then ([], lastTick)
  else
    let dtToFirst := max 0 (startTick - lastTick)
    let dur := max 1 durationTicks
    let patternLen : Int := max 1 pattern.length
    let unitTicks := Int.fdiv dur patternLen
    let lastUnitTicks := dur - unitTicks * (patternLen - 1)
    let strumTime := min (pyInt (strumDuration.mul (PyQ.ofInt TICKS_PER_BEAT)))
      (Int.fdiv TICKS_PER_BEAT 16)
    let (evs, used) :=
      advLoop velocity strumTime unitTicks lastUnitTicks chordNotes pattern
        dtToFirst
    (evs, lastTick + used)

/-- The closed set of chord rhythm strategies, each carrying the
configuration its Python constructor stores (the advanced guitar strategy
stores the pattern its constructor computed; its stored time signature is
not read by generate_events). -/
inductive Strategy : Type
  | block (velocity : Int)
  | arpeggio (velocity : Int)
  | guitar (velocity : Int) (strumDuration : PyQ)
  | rhythmic (velocity : Int) (timeSignature : Int × Int)
  | advGuitar (velocity : Int) (strumDuration : PyQ) (pattern : List Stroke)

/-- Dispatch of generate_events over the strategy set.  Only the rhythmic
strategy can raise (through the wrapping chord access); the others are
wrapped in ok. -/
def Strategy.generate : Strategy → List Int → Int → Int → Int →
    Except PyError (List MidiMsg × Int)
  | .block v, notes, s, d, l => Except.ok (blockGenerate v notes s d l)
  | .arpeggio v, notes, s, d, l => Except.ok (arpeggioGenerate v notes s d l)
  | .guitar v sd, notes, s, d, l => Except.ok (guitarGenerate v sd notes s d l)
  | .rhythmic v ts, notes, s, d, l => rhythmicGenerate v ts notes s d l
  | .advGuitar v sd p, notes, s, d, l =>
      Except.ok (advGuitarGenerate v sd p notes s d l)

/-- The keys of the get_chord_pattern factory table. -/
def chordPatternKeys : List String :=
  ["block", "arpeggio", "guitar", "rhythmic", "adv_guitar", "folk_guitar",
   "rock_guitar", "ballad_guitar", "country_guitar", "waltz_guitar"]

/-- Embedding of chord_patterns.get_chord_pattern: lower-cased name looked
up in the fixed table, defaulting to the block strategy. -/
def get_chord_pattern (patternName : String) (timeSignature : Int × Int) :
    Strategy :=
  let ln := strLower patternName
  if ln = "block" then Strategy.block CHORD_VELOCITY
  else if ln = "arpeggio" then Strategy.arpeggio CHORD_VELOCITY
  else if ln = "guitar" then
    Strategy.guitar CHORD_VELOCITY (PyQ.mk' 5 100 (by omega))
  else if ln = "rhythmic" then Strategy.rhythmic CHORD_VELOCITY timeSignature
  else if ln = "adv_guitar" then
    Strategy.advGuitar CHORD_VELOCITY (PyQ.mk' 3 100 (by omega))
      (advGuitarInitPattern timeSignature "basic" none)
  else if ln = "folk_guitar" then
    Strategy.advGuitar CHORD_VELOCITY (PyQ.mk' 3 100 (by omega))
      (advGuitarInitPattern timeSignature "folk" none)
  else if ln = "rock_guitar" then
    Strategy.advGuitar CHORD_VELOCITY (PyQ.mk' 3 100 (by omega))
      (advGuitarInitPattern timeSignature "rock" none)
  else if ln = "ballad_guitar" then
    Strategy.advGuitar CHORD_VELOCITY (PyQ.mk' 3 100 (by omega))
      (advGuitarInitPattern timeSignature "ballad" none)
  else if ln = "country_guitar" then
    Strategy.advGuitar CHORD_VELOCITY (PyQ.mk' 3 100 (by omega))
      (advGuitarInitPattern timeSignature "country" none)
  else if ln = "waltz_guitar" then
    Strategy.advGuitar CHORD_VELOCITY (PyQ.mk' 3 100 (by omega))
      (advGuitarInitPattern (3, 4) "waltz" none)
  else Strategy.block CHORD_VELOCITY

/-- Whitespace-splitting helper for Python str.split with no arguments. -/
def pySplitAux (cur : List Char) : List Char → List String
  | [] => if cur = [] then [] else [String.mk cur.reverse]
  | c :: rest =>
      if c.isWhitespace then
        if cur = [] then pySplitAux [] rest
        else String.mk cur.reverse :: pySplitAux [] rest
      else pySplitAux (c :: cur) rest

/-- Python str.split with no arguments: maximal runs of non-whitespace. -/
def pySplit (s : String) : List String := pySplitAux [] s.data

/-- Split of a character list at every occurrence of the separator. -/
def splitOnChar (c : Char) : List Char → List (List Char)
  | [] => [[]]
  | d :: rest =>
      match splitOnChar c rest with
      | [] => [[d]]
      | h :: t => if d = c then [] :: h :: t else (d :: h) :: t

/-- Python str.splitlines, modelled as splitting at newline characters
(the lines of this grammar contain no other line terminators).  A
trailing empty piece differs from Python only in blank lines, which the
tokenizer drops. -/
def splitLines (s : String) : List String :=
  (splitOnChar (Char.ofNat 10) s.data).map String.mk

/-- Python str.rstrip. -/
def strRstrip (s : String) : String :=
  String.mk (s.data.reverse.dropWhile Char.isWhitespace).reverse

/-- Python str.split with separator and maxsplit one, applied at the
first equals sign: the part before it and the part after it, or none when
the string holds no equals sign (unpacking then raises ValueError). -/
def splitFirstEq : List Char → Option (List Char × List Char)
  | [] => none
  | c :: rest =>
      if c = '=' then some ([], rest)
      else (splitFirstEq rest).map (fun p => (c :: p.1, p.2))

/-- The lines of ScoreParser kept for processing: non-blank lines,
right-stripped. -/
def scoreKeptLines (text : String) : List String :=
  ((splitLines text).filter (fun l => strStrip l ≠ "")).map strRstrip

/-- Line loop of ScoreParser.parse: comment lines dropped, hash lines
parsed as header assignments into the metadata map (newest first, so
lookup by first match models dict overwrite), all other lines collected
as body lines. -/
def scoreParseAux : List String → List (String × String) → List String →
    Except PyError (List (String × String) × List String)
  | [], meta, body => Except.ok (meta, body.reverse)
  | l :: rest, meta, body =>
      if l.data.head? = some ';' then scoreParseAux rest meta body
      else if l.data.head? = some '#' then
        match splitFirstEq (l.data.drop 1) with
        | none => Except.error PyError.valueError
        | some (k, v) =>
            scoreParseAux rest
              ((strUpper (strStrip (String.mk k)), strStrip (String.mk v)) :: meta)
              body
  else
        scoreParseAux rest meta (l :: body)

/-- Embedding of ScoreParser: metadata map and token list from raw text;
tokens are the whitespace splits of the body lines in order. -/
def scoreParse (text : String) :
    Except PyError (List (String × String) × List String) :=
  (scoreParseAux (scoreKeptLines text) [] []).map
    (fun r => (r.1, r.2.flatMap pySplit))

/-- Boolean prefix test on character lists. -/
def isPrefixList : List Char → List Char → Bool
  | [], _ => true
  | _ :: _, [] => false
  | a :: as, b :: bs => a == b && isPrefixList as bs

/-- Boolean substring containment on character lists, modelling the
Python in operator on strings. -/
def containsSub (pat : List Char) : List Char → Bool
  | [] => pat.isEmpty
  | c :: rest => isPrefixList pat (c :: rest) || containsSub pat rest

/-- Lookup in the metadata map with a default, modelling dict.get. -/
def metaGet (meta : List (String × String)) (key dflt : String) : String :=
  (assocLookup key meta).getD dflt

/-- Python int() applied to a string: optional sign and digits, with
surrounding whitespace allowed. -/
def pyParseInt (s : String) : Except PyError Int :=
  let cs := (strStrip s).data
  let (sign, body) :=
    match cs with
    | '-' :: r => ((-1 : Int), r)
    | '+' :: r => ((1 : Int), r)
    | _ => ((1 : Int), cs)
  if body ≠ [] ∧ body.all Char.isDigit then
    Except.ok (sign * digitsVal body)
  else Except.error PyError.valueError

/-- Embedding of utils._norm_key. -/
def _norm_key (name : String) : Except PyError String :=
  match (strStrip name).data with
  | [c] => Except.ok (String.mk [c.toUpper])
  | [c, a] =>
      if a = '#' ∨ a = 'b' then Except.ok (String.mk [c.toUpper, a])
      else Except.error PyError.valueError
  | _ => Except.error PyError.valueError

/-- Power-of-two test on the naturals below 2 to the 64, covering every
time-signature denominator any realistic score can carry; models the
Python bit test den and den minus one. -/
def isPow2Nat (n : Nat) : Bool :=
  decide (∃ k : Fin 64, n = 2 ^ (k : Nat))

/-- Truthiness of the Python expression den and (den - 1) being zero: a
zero or power-of-two denominator passes, negative denominators always
fail (their bitwise and is negative). -/
def pow2Check (d : Int) : Bool :=
  if d = 0 then true
  else if d < 0 then false
  else isPow2Nat d.toNat

example : scoreParse "#KEY=C\n1 2 | 3\n; comment\nR" =
    Except.ok ([("KEY", "C")], ["1", "2", "|", "3", "R"]) := by decide
example : scoreParse "#foo" = Except.error PyError.valueError := by decide
example : pySplit "  1  2q. | " = ["1", "2q.", "|"] := by decide
example : pyParseInt " 120 " = Except.ok 120 := by decide
example : _norm_key "bb" = Except.ok "Bb" := by decide
example : pow2Check 8 = true := by decide
example : pow2Check 6 = false := by decide

/-- Compile-time parameters of build_midi derived from the metadata. -/
structure BuildParams where
  unit : PyQ
  tempoBpm : Int
  keyRoot : String
  tsNum : Int
  tsDen : Int
  beatsPerMeasure : PyQ
  chordPattern : Strategy
  fromMeasure : Int
  toMeasure : Option Int

/-- Timeline state of the build_midi pass, including the two event
streams under construction. -/
structure BState where
  curTick : Int
  deltaMelody : Int
  measureBeats : PyQ
  currentMeasure : Int
  isRecording : Bool
  measureStartTick : Int
  chordActive : List Int
  chordLastTick : Int
  pattern : Strategy
  melody : List MidiMsg
  chords : List MidiMsg

/-- Result of a build step: the new state, or an error paired with the
state at the moment the error was raised. -/
def BRes : Type := Except (PyError × BState) BState

/-- The negated epsilon of the measure checks.  The Python literal 1e-6
is the nearest binary double to one millionth; no beat total of this
grammar can fall strictly between the two, so the exact value is a
faithful model. -/
def negEps : PyQ := PyQ.mk' (-1) 1000000 (by omega)

/-- The epsilon of the measure padding checks. -/
def epsQ : PyQ := PyQ.mk' 1 1000000 (by omega)

/-- Embedding of the measure-boundary branch of build_midi: overflow
check, conditional padding while recording, accumulator reset, measure
advance and recording-window update. -/
def barlineStep (p : BuildParams) (st : BState) : BRes :=
  let left := p.beatsPerMeasure.sub st.measureBeats
  if left.lt negEps then Except.error (PyError.valueError, st)
  else
    let st1 :=
      if epsQ.lt left && st.isRecording then
        let padTicks := pyInt (left.mul (PyQ.ofInt TICKS_PER_BEAT))
        { st with deltaMelody := st.deltaMelody + padTicks,
                  curTick := st.curTick + padTicks }
      else st
    Except.ok { st1 with
      measureStartTick := st1.curTick,
      measureBeats := PyQ.ofInt 0,
      currentMeasure := st1.currentMeasure + 1,
      isRecording := decide (p.fromMeasure ≤ st1.currentMeasure + 1) }

/-- Embedding of the rest branch of build_midi. -/
def restStep (p : BuildParams) (st : BState) (m : RestTok) : BRes :=
  match _beats m.dur m.dots p.unit with
  | .error e => Except.error (e, st)
  | .ok beats =>
      let ticks := pyInt (beats.mul (PyQ.ofInt TICKS_PER_BEAT))
      Except.ok { st with
        deltaMelody := st.deltaMelody + ticks,
        curTick := st.curTick + ticks,
        measureBeats := st.measureBeats.add beats }

/-- Octave shift of a note token: octave-up markers minus octave-down
markers. -/
def octShiftOf (oct : String) : Int :=
  (oct.data.count apoChar : Int) - (oct.data.count ',' : Int)

/-- Tie-merging lookahead of the melody branch: consumes following note
tokens while the tie flag is set, the next token matches the note
pattern and resolves to the same pitch; returns the merged beat total and
the number of tokens consumed. -/
def melodyTieCollect (p : BuildParams) (pitch : Int) :
    PyQ → Bool → List String → Except PyError (PyQ × Nat)
  | beats, false, _ => Except.ok (beats, 0)
  | beats, true, [] => Except.ok (beats, 0)
  | beats, true, t :: rest =>
      match noteMatch t with
      | none => Except.ok (beats, 0)
      | some nxt => do
          let npitch ← _degree2midi nxt.deg nxt.acc (octShiftOf nxt.oct) p.keyRoot
          if npitch ≠ pitch then pure (beats, 0)
          else do
            let b ← _beats nxt.dur nxt.dots p.unit
            let r ← melodyTieCollect p pitch (beats.add b) nxt.tie rest
            pure (r.1, r.2 + 1)

/-- Embedding of the note branch of build_midi: beat and pitch
resolution, tie merging, one onset at the pending delta and one release
at the merged duration on the melody stream.  Returns the new state and
the count of extra tokens consumed by tie merging. -/
def noteStep (p : BuildParams) (st : BState) (m : NoteTok) (rest : List String) :
    Except (PyError × BState) (BState × Nat) :=
  match _beats m.dur m.dots p.unit with
  | .error e => Except.error (e, st)
  | .ok beats0 =>
      match _degree2midi m.deg m.acc (octShiftOf m.oct) p.keyRoot with
      | .error e => Except.error (e, st)
      | .ok pitch =>
          match melodyTieCollect p pitch beats0 m.tie rest with
          | .error e => Except.error (e, st)
          | .ok (beats, k) =>
              let ticks := pyInt (beats.mul (PyQ.ofInt TICKS_PER_BEAT))
              Except.ok ({ st with
                melody := st.melody ++
                  [⟨EvKind.on, 0, pitch, 64, st.deltaMelody⟩,
                   ⟨EvKind.off, 0, pitch, 64, ticks⟩],
                deltaMelody := 0,
                curTick := st.curTick + ticks,
                measureBeats := st.measureBeats.add beats }, k)

/-- Forward scan of the chord branch: relative index of the next token
that matches the chord pattern and not the note pattern. -/
def findNextChordIdx : List String → Option Nat
  | [] => none
  | t :: rest =>
      if t.data.head? = some '#' then (findNextChordIdx rest).map (fun j => j + 1)
      else if isChordTok t && (noteMatch t).isNone then some 0
      else (findNextChordIdx rest).map (fun j => j + 1)

/-- Tie accumulation inside the chord-span scan, which merges following
note tokens without comparing pitches. -/
def spanTieCollect (unit : PyQ) :
    PyQ → Bool → List String → Except PyError (PyQ × Nat)
  | beats, false, _ => Except.ok (beats, 0)
  | beats, true, [] => Except.ok (beats, 0)
  | beats, true, t :: rest =>
      match noteMatch t with
      | none => Except.ok (beats, 0)
      | some nxt => do
          let b ← _beats nxt.dur nxt.dots unit
          let r ← spanTieCollect unit (beats.add b) nxt.tie rest
          pure (r.1, r.2 + 1)

/-- Chord-span scan of build_midi over the tokens between a chord symbol
and the next chord symbol: metadata and bar tokens are skipped, rest and
note beat values (with tie merging) are converted to ticks one token
group at a time and summed.  The fuel argument only bounds the recursion;
every iteration consumes at least one token, so the callers pass fuel
exceeding the list length and the zero-fuel branch is unreachable. -/
def spanLoopF (unit : PyQ) : Nat → List String → Except PyError Int
  | 0, _ => Except.ok 0
  | _ + 1, [] => Except.ok 0
  | f + 1, t :: rest =>
      if t.data.head? = some '#' ∨ t = "|" ∨ t = "||" then spanLoopF unit f rest
      else
        match restMatch t with
        | some r => do
            let b ← _beats r.dur r.dots unit
            let tail ← spanLoopF unit f rest
            pure (pyInt (b.mul (PyQ.ofInt TICKS_PER_BEAT)) + tail)
        | none =>
            match noteMatch t with
            | some m => do
                let b ← _beats m.dur m.dots unit
                let rr ← spanTieCollect unit b m.tie rest
                let tail ← spanLoopF unit f (rest.drop rr.2)
                pure (pyInt (rr.1.mul (PyQ.ofInt TICKS_PER_BEAT)) + tail)
            | none => spanLoopF unit f rest

/-- Chord-span scan with sufficient fuel. -/
def spanLoop (unit : PyQ) (toks : List String) : Except PyError Int :=
  spanLoopF unit (toks.length + 1) toks

/-- Release of a currently active chord at the elapsed gap, as performed
both before a new chord symbol and at end of input. -/
def closeChord (st : BState) : BState :=
  if st.chordActive ≠ [] then
    let dt := max 0 (st.curTick - st.chordLastTick)
    { st with chords := st.chords ++ offsFirst dt st.chordActive,
              chordLastTick := st.curTick }
  else st

/-- The relative-position computation of the chord branch (from_tick and
to_tick).  Its results feed only the failing strategy call, so only its
possible division-by-zero error is observable; both divisions divide by
the measure length in ticks and are executed under the source's guards. -/
def fromToTickCheck (p : BuildParams) (st : BState)
    (chordStartTick chordDurationTicks : Int) (foundNext : Bool) :
    Except PyError Unit :=
  if foundNext then
    let mbt := p.beatsPerMeasure.mul (PyQ.ofInt TICKS_PER_BEAT)
    let firstDiv :=
      if st.measureStartTick ≤ chordStartTick then mbt.num ≠ 0 else True
    if ¬ firstDiv then Except.error PyError.zeroDivisionError
    else
      let nextChordTick := chordStartTick + chordDurationTicks
      if (PyQ.ofInt nextChordTick).lt
          ((PyQ.ofInt st.measureStartTick).add mbt) && (mbt.num = 0) then
        Except.error PyError.zeroDivisionError
      else Except.ok ()
  else Except.ok ()

/-- The number of positional parameters (besides self) of every
generate_events implementation in chord_patterns.py. -/
def generateEventsParamCount : Nat := 5

/-- The number of positional arguments build_midi passes at its
generate_events call site: chord notes, start tick, measure total ticks,
track, last tick, from_tick, to_tick. -/
def buildCallArgCount : Nat := 7

/-- Embedding of the chord branch of build_midi: close the previous
chord, scan forward for the next chord symbol, accumulate the span,
resolve the symbol, and for a non-empty resolution evaluate the
call arguments and attempt the generate_events call, which fails to bind
seven positional arguments to five parameters and raises TypeError before
any onset is emitted.  An empty resolution clears the active chord. -/
def chordStep (p : BuildParams) (st0 : BState) (tok : String)
    (rest : List String) : BRes :=
  let st := closeChord st0
  let chordStartTick := st.curTick
  let jOpt := findNextChordIdx rest
  let durRes : Except PyError Int :=
    match jOpt with
    | some j => (spanLoop p.unit (rest.take j)).map (fun d => max 1 d)
    | none =>
        Except.ok (max 1 (pyInt (p.beatsPerMeasure.mul
          (PyQ.ofInt TICKS_PER_BEAT))))
  match durRes with
  | .error e => Except.error (e, st)
  | .ok chordDurationTicks =>
      match _parse_chord tok with
      | .error e => Except.error (e, st)
      | .ok notes =>
          if notes ≠ [] then
            match fromToTickCheck p st chordStartTick chordDurationTicks
                jOpt.isSome with
            | .error e => Except.error (e, st)
            | .ok _ =>
                if buildCallArgCount = generateEventsParamCount then
                  -- unreachable: the call would dispatch here
                  Except.ok st
                else Except.error (PyError.typeError, st)
          else Except.ok { st with chordActive := [] }

/-- Embedding of the inline-directive branch of build_midi: a token whose
upper-cased text contains CHORD_PATTERN updates the active strategy when
it splits at an equals sign; otherwise the failed unpacking is caught and
the previous strategy is kept.  Any other hash token is skipped. -/
def directiveStep (st : BState) (tok : String) : BState :=
  if containsSub "CHORD_PATTERN".data (strUpper tok).data then
    match splitFirstEq (tok.data.drop 1) with
    | none => st
    | some (_, v) =>
        { st with pattern :=
            get_chord_pattern (strStrip (String.mk v)) (4, 4) }
  else st

/-- Break test at the top of the token loop: a set to_measure already
passed. -/
def loopBreak (p : BuildParams) (st : BState) : Bool :=
  match p.toMeasure with
  | some tm => decide (tm < st.currentMeasure)
  | none => false

/-- Main token loop of build_midi, dispatching on the token class in
source order.  The fuel argument only bounds the recursion; every
iteration consumes at least one token, so the callers pass fuel exceeding
the token count and the zero-fuel branch is unreachable. -/
def buildLoopF (p : BuildParams) : Nat → List String → BState → BRes
  | 0, _, st => Except.ok st
  | _ + 1, [], st => Except.ok st
  | f + 1, tok :: rest, st =>
      if loopBreak p st then Except.ok st
      else if tok.data.head? = some '#' then
        buildLoopF p f rest (directiveStep st tok)
      else if tok = "|" ∨ tok = "||" then
        match barlineStep p st with
        | .error e => Except.error e
        | .ok st1 => buildLoopF p f rest st1
      else if st.isRecording = false then
        buildLoopF p f rest st
      else
        match restMatch tok with
        | some m =>
            match restStep p st m with
            | .error e => Except.error e
            | .ok st1 => buildLoopF p f rest st1
        | none =>
            if isChordTok tok && (noteMatch tok).isNone then
              match chordStep p st tok rest with
              | .error e => Except.error e
              | .ok st1 => buildLoopF p f rest st1
            else
              match noteMatch tok with
              | none => Except.error (PyError.valueError, st)
              | some m =>
                  match noteStep p st m rest with
                  | .error e => Except.error e
                  | .ok (st1, k) => buildLoopF p f (rest.drop k) st1

/-- Terminal handling of build_midi: the final-measure overflow check and
padding (a pad release appended directly to the melody stream, with no
recording condition, no delta advance and no accumulator reset), then the
release of any still-active chord and the end-of-track markers. -/
def finalizeBuild (p : BuildParams) (st : BState) : BRes :=
  let left := p.beatsPerMeasure.sub st.measureBeats
  if left.lt negEps then Except.error (PyError.valueError, st)
  else
    let st1 :=
      if epsQ.lt left then
        let padTicks := pyInt (left.mul (PyQ.ofInt TICKS_PER_BEAT))
        { st with melody := st.melody ++ [⟨EvKind.off, 0, 0, 0, padTicks⟩],
                  curTick := st.curTick + padTicks,
                  measureStartTick := st.curTick + padTicks }
      else st
    let st2 :=
      if st1.chordActive ≠ [] then
        let dt := max 0 (st1.curTick - st1.chordLastTick)
        { st1 with chords := st1.chords ++ offsFirst dt st1.chordActive }
      else st1
    Except.ok { st2 with
      melody := st2.melody ++ [⟨EvKind.meta, 0, 0, 0, 0⟩],
      chords := st2.chords ++ [⟨EvKind.meta, 0, 0, 0, 0⟩] }

/-- Header processing of build_midi: unit lookup with default, tempo
parse, key normalization and validation, time-signature parse with the
power-of-two denominator check, and chord strategy selection. -/
def headerParams (meta : List (String × String)) (fromMeasure : Int)
    (toMeasure : Option Int) : Except PyError BuildParams := do
  let unit := (DUR2BEAT (strLower (metaGet meta "UNIT" "q"))).getD (PyQ.ofInt 1)
  let tempo ←
    match assocLookup "TEMPO" meta with
    | none => pure (120 : Int)
    | some s => pyParseInt s
  let keyRoot ← _norm_key (metaGet meta "KEY" "C")
  if (NOTE2MIDI keyRoot).isNone then throw PyError.valueError
  let timeStr := metaGet meta "TIME" "4/4"
  let (tsNum, tsDen) ←
    match splitOnChar '/' timeStr.data with
    | [a, b] => do
        let x ← pyParseInt (String.mk a)
        let y ← pyParseInt (String.mk b)
        pure (x, y)
    | _ => throw PyError.valueError
  if pow2Check tsDen = false then throw PyError.valueError
  if h : 0 < tsDen then
    let beatsPerMeasure := PyQ.mk' (tsNum * 4) tsDen h
    let chordPatternName := metaGet meta "CHORD_PATTERN" "block"
    let pattern := get_chord_pattern chordPatternName (tsNum, tsDen)
    pure ⟨unit, tempo, keyRoot, tsNum, tsDen, beatsPerMeasure, pattern,
      fromMeasure, toMeasure⟩
  else throw PyError.zeroDivisionError

/-- Initial timeline state: tick counters at zero, measure one, the
recording window open when from_measure is at most one, the strategy from
the header, the melody stream holding its tempo, time-signature and
track-name events and the chord stream its program-select and track-name
events. -/
def initState (p : BuildParams) : BState where
  curTick := 0
  deltaMelody := 0
  measureBeats := PyQ.ofInt 0
  currentMeasure := 1
  isRecording := decide (p.fromMeasure ≤ 1)
  measureStartTick := 0
  chordActive := []
  chordLastTick := 0
  pattern := p.chordPattern
  melody := [⟨EvKind.meta, 0, 0, 0, 0⟩, ⟨EvKind.meta, 0, 0, 0, 0⟩,
             ⟨EvKind.meta, 0, 0, 0, 0⟩]
  chords := [⟨EvKind.programChange, CHORD_CH, 0, 48, 0⟩,
             ⟨EvKind.meta, 0, 0, 0, 0⟩]

/-- State carried by errors raised during header processing, before the
timeline state exists: empty streams. -/
def bstate0 : BState where
  curTick := 0
  deltaMelody := 0
  measureBeats := PyQ.ofInt 0
  currentMeasure := 1
  isRecording := true
  measureStartTick := 0
  chordActive := []
  chordLastTick := 0
  pattern := Strategy.block CHORD_VELOCITY
  melody := []
  chords := []

/-- Embedding of build_midi without the optional metronome track (the
claims do not touch it): header processing, the token loop, and terminal
handling.  Errors carry the state at the moment they were raised. -/
def buildMidi (meta : List (String × String)) (toks : List String)
    (fromMeasure : Int) (toMeasure : Option Int) : BRes :=
  match headerParams meta fromMeasure toMeasure with
  | .error e => Except.error (e, bstate0)
  | .ok p =>
      match buildLoopF p (toks.length + 1) toks (initState p) with
      | .error e => Except.error e
      | .ok st => finalizeBuild p st

/-- The default invocation of build_midi: full range, as the CLI uses
when no measure window is given. -/
def buildMidiDefault (meta : List (String × String)) (toks : List String) :
    BRes :=
  buildMidi meta toks 0 none

/-- Projection of a build result onto its error kind, if any. -/
def buildErr : BRes → Option PyError
  | .error (e, _) => some e
  | .ok _ => none

/-- Projection of a build result onto the state (final or at error). -/
def buildState : BRes → BState
  | .error (_, st) => st
  | .ok st => st

example : buildErr (buildMidiDefault [] ["C"]) = some PyError.typeError := by
  decide
example : buildErr (buildMidiDefault [] ["1", "2", "3", "4", "|"]) = none := by
  decide
example : (buildState (buildMidiDefault [] ["1", "2", "3", "4", "|"])).melody =
    [⟨EvKind.meta, 0, 0, 0, 0⟩, ⟨EvKind.meta, 0, 0, 0, 0⟩,
     ⟨EvKind.meta, 0, 0, 0, 0⟩,
     ⟨EvKind.on, 0, 60, 64, 0⟩, ⟨EvKind.off, 0, 60, 64, 480⟩,
     ⟨EvKind.on, 0, 62, 64, 0⟩, ⟨EvKind.off, 0, 62, 64, 480⟩,
     ⟨EvKind.on, 0, 64, 64, 0⟩, ⟨EvKind.off, 0, 64, 64, 480⟩,
     ⟨EvKind.on, 0, 65, 64, 0⟩, ⟨EvKind.off, 0, 65, 64, 480⟩,
     ⟨EvKind.off, 0, 0, 0, 1920⟩, ⟨EvKind.meta, 0, 0, 0, 0⟩] := by decide
example : buildErr (buildMidiDefault []
    ["1", "1", "1", "1", "1", "|"]) = some PyError.valueError := by decide
example :
    ((buildState (buildMidiDefault [] ["1h"])).measureBeats).req
      (PyQ.ofInt 2) = true := by decide
example : (buildState (buildMidiDefault [] ["1h"])).deltaMelody = 0 := by
  decide


/-- Claim C3 (code bug, failing input): the claim says a duration code of
the form slash-N yields unit times N, and the grammar in the source
docstring documents slash durations, but _beats passes the entire code
including the slash to float(), which cannot parse it, so the code raises
ValueError on every slash duration; at the failing input the claimed
value would have been 4.  The remaining clauses of the claim (empty code,
letter codes, dots) hold as stated. -/
theorem C3_beats_slash_failing :
    errOf (_beats "/4" "" (PyQ.ofInt 1)) = some PyError.valueError ∧
    (_beats "" "" (PyQ.ofInt 1)).map PyQ.toRat = Except.ok 1 ∧
    (_beats "h" "" (PyQ.ofInt 1)).map PyQ.toRat = Except.ok 2 ∧
    (_beats "q" "." (PyQ.ofInt 1)).map PyQ.toRat = Except.ok (3/2) ∧
    (_beats "q" ".." (PyQ.ofInt 1)).map PyQ.toRat = Except.ok (7/4) := by
  refine ⟨by decide, ?_, ?_, ?_, ?_⟩ <;>
    simp [_beats, DUR2BEAT, PyQ.toRat, PyQ.ofInt, PyQ.mul, PyQ.mk',
      Except.map, pure, Except.pure, Except.bind, Bind.bind]

/-- Claim C8 (confirmed): degreeToPitch is periodic in octave; raising
the octave shift by one raises the resulting pitch by 12 semitones, for
every scale degree 1 to 7, accidental, and recognized key root. -/
theorem C8_degree2midi_octave (d : Int) (a : String) (k : Int) (key : String)
    (hd1 : 1 ≤ d) (hd7 : d ≤ 7)
    (ha : a = "#" ∨ a = "b" ∨ a = "")
    (hkey : (NOTE2MIDI key).isSome = true) :
    _degree2midi d a (k + 1) key =
      (_degree2midi d a k key).map (fun p => p + 12) := by
  obtain ⟨root, hroot⟩ := Option.isSome_iff_exists.mp hkey
  have hj : (if d - 1 < 0 then d - 1 + (MAJOR_INTERVALS.length : Int)
      else d - 1) = d - 1 := by
    rw [if_neg (by omega)]
  have hlt : (d - 1).toNat < MAJOR_INTERVALS.length := by
    have : MAJOR_INTERVALS.length = 7 := by decide
    omega
  simp only [_degree2midi, hroot, pyListGet, hj,
    List.get?_eq_get hlt, if_pos (by omega : (0 : Int) ≤ d - 1),
    Except.bind, Bind.bind, Except.map, pure, Except.pure]
  congr 1
  ring

/-- Witness for claim C8 at degree 1, sharp accidental, octave 0 to 1,
key C. -/
theorem C8_degree2midi_octave_witness :
    _degree2midi 1 "#" (0 + 1) "C" =
      (_degree2midi 1 "#" 0 "C").map (fun p => p + 12) :=
  C8_degree2midi_octave 1 "#" 0 "C" (by decide) (by decide) (Or.inl rfl)
    (by decide)

/-- Claim C7 helper: the wrapping access returns the claimed modular
formula for any fuel exceeding the index. -/
theorem chordGetLoop_formula (notes : List Int) (hne : notes ≠ [])
    (i : Nat) : ∀ fuel, i < fuel →
    chordGetLoop notes fuel (i : Int) =
      Except.ok (notes.get ⟨i % notes.length,
        Nat.mod_lt i (List.length_pos.mpr hne)⟩ +
        12 * (i / notes.length : Nat)) := by
  induction i using Nat.strong_induction_on with
  | _ i ih =>
    intro fuel hfuel
    match fuel, hfuel with
    | fuel + 1, _ =>
      have hlen : 0 < notes.length := List.length_pos.mpr hne
      rw [chordGetLoop]
      by_cases hlt : (i : Int) < (notes.length : Int)
      · rw [if_pos hlt]
        have hiN : i < notes.length := by exact_mod_cast hlt
        have hj : (if (i : Int) < 0 then (i : Int) + (notes.length : Int)
            else (i : Int)) = (i : Int) := by
          rw [if_neg (by omega)]
        have htn : ((i : Int)).toNat = i := Int.toNat_natCast i
        simp only [pyListGet, hj, htn, List.get?_eq_get hiN,
          if_pos (by omega : (0 : Int) ≤ (i : Int))]
        congr 1
        have h1 : i % notes.length = i := Nat.mod_eq_of_lt hiN
        have h2 : i / notes.length = 0 := Nat.div_eq_of_lt hiN
        simp only [h1, h2]
        simp
      · rw [if_neg hlt, if_neg (by omega)]
        have hge : notes.length ≤ i := by omega
        have hstep : (i : Int) - (notes.length : Int) =
            ((i - notes.length : Nat) : Int) := by omega
        rw [hstep, ih (i - notes.length) (by omega) fuel (by omega)]
        simp only [Except.map]
        have hmod : (i - notes.length) % notes.length = i % notes.length := by
          conv_rhs => rw [← Nat.sub_add_cancel hge]
          rw [Nat.add_mod_right]
        have hdiv : (i - notes.length) / notes.length + 1 = i / notes.length := by
          conv_rhs => rw [← Nat.sub_add_cancel hge]
          rw [Nat.add_div_right _ hlen]
        have hget : notes.get ⟨(i - notes.length) % notes.length,
            Nat.mod_lt _ hlen⟩ = notes.get ⟨i % notes.length,
            Nat.mod_lt _ hlen⟩ := by
          congr 1
          exact Fin.ext hmod
        rw [hget]
        congr 1
        have : (((i - notes.length) / notes.length : Nat) : Int) + 1 =
            ((i / notes.length : Nat) : Int) := by exact_mod_cast hdiv
        omega

/-- Claim C7 (confirmed): indexing a non-empty chord at a non-negative
index i returns the pitch at position i mod length transposed up by 12
semitones for every full wrap, i div length. -/
theorem C7_chord_index_wraps (notes : List Int) (i : Nat) (hne : notes ≠ []) :
    chordGetItem notes (i : Int) =
      Except.ok (notes.get ⟨i % notes.length,
        Nat.mod_lt i (List.length_pos.mpr hne)⟩ +
        12 * (i / notes.length : Nat)) := by
  have htn : ((i : Int)).toNat = i := Int.toNat_natCast i
  rw [chordGetItem, htn]
  exact chordGetLoop_formula notes hne i (i + 1) (Nat.lt_succ_self i)

/-- Witness for claim C7 at the chord C major and index 4: one wrap above
the third of the chord, 52 + 12 = 64. -/
theorem C7_chord_index_wraps_witness :
    chordGetItem [48, 52, 55] ((4 : Nat) : Int) = Except.ok 64 := by
  rw [C7_chord_index_wraps [48, 52, 55] 4 (by decide)]
  decide

/-- Claim C10 (confirmed): the strategy factory looks its argument up
case-insensitively (two names with the same lower-casing select the same
strategy), and any name whose lower-casing is outside the fixed key table
silently yields the block strategy. -/
theorem C10_get_chord_pattern_lookup :
    (∀ n1 n2 : String, ∀ ts : Int × Int, strLower n1 = strLower n2 →
      get_chord_pattern n1 ts = get_chord_pattern n2 ts) ∧
    (∀ n : String, ∀ ts : Int × Int, strLower n ∉ chordPatternKeys →
      get_chord_pattern n ts = Strategy.block CHORD_VELOCITY) := by
  constructor
  · intro n1 n2 ts h
    simp only [get_chord_pattern, h]
  · intro n ts h
    simp only [chordPatternKeys, List.mem_cons, List.mem_singleton,
      not_or] at h
    obtain ⟨h1, h2, h3, h4, h5, h6, h7, h8, h9, h10, -⟩ := h
    simp only [get_chord_pattern, h1, h2, h3, h4, h5, h6, h7, h8, h9, h10,
      if_false]

/-- Witness for claim C10: BLOCK and block agree, and an unknown name
falls back to the block strategy. -/
theorem C10_get_chord_pattern_lookup_witness :
    get_chord_pattern "BLOCK" (4, 4) = get_chord_pattern "block" (4, 4) ∧
    get_chord_pattern "unknown_style" (4, 4) =
      Strategy.block CHORD_VELOCITY :=
  ⟨C10_get_chord_pattern_lookup.1 "BLOCK" "block" (4, 4) (by decide),
   C10_get_chord_pattern_lookup.2 "unknown_style" (4, 4) (by decide)⟩

/-- Every interval set of the quality table, and the default, starts at
interval 0, the root. -/
theorem qualIntervals_head (q : String) :
    ((qualIntervals q).getD [0, 4, 7]).head? = some 0 := by
  unfold qualIntervals
  by_cases h1 : q = "m"
  · rw [if_pos h1]; rfl
  rw [if_neg h1]
  by_cases h2 : q = "aug" ∨ q = "+"
  · rw [if_pos h2]; rfl
  rw [if_neg h2]
  by_cases h3 : q = "dim" ∨ q = "o" ∨ q = "°"
  · rw [if_pos h3]; rfl
  rw [if_neg h3]
  by_cases h4 : q = "sus4"
  · rw [if_pos h4]; rfl
  rw [if_neg h4]
  by_cases h5 : q = "sus2"
  · rw [if_pos h5]; rfl
  rw [if_neg h5]
  by_cases h6 : q = "7"
  · rw [if_pos h6]; rfl
  rw [if_neg h6]
  by_cases h7 : q = "m7" ∨ q = "min7"
  · rw [if_pos h7]; rfl
  rw [if_neg h7]
  by_cases h8 : q = "maj7" ∨ q = "M7"
  · rw [if_pos h8]; rfl
  rw [if_neg h8]
  by_cases h9 : q = "m7b5" ∨ q = "ø"
  · rw [if_pos h9]; rfl
  rw [if_neg h9]
  by_cases h10 : q = "dim7" ∨ q = "o7" ∨ q = "°7"
  · rw [if_pos h10]; rfl
  rw [if_neg h10]
  by_cases h11 : q = "6"
  · rw [if_pos h11]; rfl
  rw [if_neg h11]
  by_cases h12 : q = "m6"
  · rw [if_pos h12]; rfl
  rw [if_neg h12]
  by_cases h13 : q = "9" ∨ q = "7(9)"
  · rw [if_pos h13]; rfl
  rw [if_neg h13]
  rfl

/-- Claim C6 (confirmed): the chord resolver returns the empty list for
the symbol O in either letter case; fails with the validation error when
the extracted root is not a recognized note name; silently falls back to
the major triad intervals 0, 4, 7 for a recognized root with an
unrecognized quality suffix; and roots every returned pitch list one
octave (12 semitones) below the melody-register mapping of the root. -/
theorem C6_parse_chord_contract (sym : String) (root : String)
    (qualChars : List Char)
    (hsplit : chordRootSplit (strStrip sym).data = (root, qualChars)) :
    (strUpper sym = "O" → _parse_chord sym = Except.ok []) ∧
    (strUpper sym ≠ "O" → (strStrip sym).data ≠ [] →
      (NOTE2MIDI root = none →
        _parse_chord sym = Except.error PyError.valueError) ∧
      (∀ rv : Int, NOTE2MIDI root = some rv →
        (qualIntervals (strLower (String.mk qualChars)) = none →
          _parse_chord sym =
            Except.ok ([0, 4, 7].map (fun iv => rv - 12 + iv))) ∧
        (∀ l : List Int, _parse_chord sym = Except.ok l →
          l.head? = some (rv - 12)))) := by
  constructor
  · intro hO
    simp only [_parse_chord, if_pos hO]
  · intro hO hne
    rw [_parse_chord, if_neg hO]
    cases hdata : (strStrip sym).data with
    | nil => exact absurd hdata hne
    | cons c rest =>
      simp only [hsplit]
      constructor
      · intro hn
        simp only [hn]
      · intro rv hrv
        simp only [hrv]
        constructor
        · intro hq
          simp only [hq, Option.getD_none]
        · intro l hl
          have hmap :
              ((qualIntervals (strLower (String.mk qualChars))).getD
                [0, 4, 7]).map (fun iv => rv - 12 + iv) = l := by
            exact Except.ok.inj hl
          rw [← hmap, List.head?_map, qualIntervals_head]
          simp

/-- Witness for claim C6: the symbol Cxyz has recognized root C and
unrecognized suffix xyz, so it resolves to the major triad rooted one
octave below the melody-register C. -/
theorem C6_parse_chord_contract_witness :
    _parse_chord "Cxyz" = Except.ok ([0, 4, 7].map (fun iv => 60 - 12 + iv)) :=
  (((C6_parse_chord_contract "Cxyz" "C" "xyz".data (by decide)).2
    (by decide) (by decide)).2 60 (by decide)).1 (by decide)

/-- A line that the tokenizer turns into body tokens: neither a comment
line nor a hash line. -/
def isBodyLine (l : String) : Bool :=
  !(l.data.head? == some ';') && !(l.data.head? == some '#')

/-- The body lines collected by the tokenizer line loop are exactly the
incoming body accumulator followed by the non-comment non-hash lines. -/
theorem scoreParseAux_body (lines : List String) :
    ∀ meta body m b, scoreParseAux lines meta body = Except.ok (m, b) →
      b = body.reverse ++ lines.filter isBodyLine := by
  induction lines with
  | nil =>
    intro meta body m b h
    simp only [scoreParseAux] at h
    obtain ⟨-, hb⟩ := Prod.mk.injEq .. ▸ Except.ok.inj h
    simp [← hb]
  | cons l rest ih =>
    intro meta body m b h
    rw [scoreParseAux] at h
    by_cases hc : l.data.head? = some ';'
    · rw [if_pos hc] at h
      rw [ih _ _ _ _ h, List.filter_cons]
      have : isBodyLine l = false := by
        simp [isBodyLine, hc]
      simp [this]
    · rw [if_neg hc] at h
      by_cases hh : l.data.head? = some '#'
      · rw [if_pos hh] at h
        match hsp : splitFirstEq (l.data.drop 1) with
        | none => rw [hsp] at h; exact absurd h (by simp)
        | some (k, v) =>
            rw [hsp] at h
            rw [ih _ _ _ _ h, List.filter_cons]
            have : isBodyLine l = false := by
              simp [isBodyLine, hh]
            simp [this]
      · rw [if_neg hh] at h
        rw [ih _ _ _ _ h, List.filter_cons]
        have : isBodyLine l = true := by
          simp [isBodyLine, hc, hh]
        simp [this]

/-- The tokenizer line loop succeeds exactly when every hash line
contains an equals sign. -/
theorem scoreParseAux_ok (lines : List String) :
    ∀ meta body, (scoreParseAux lines meta body).isOk = true ↔
      ∀ l ∈ lines, l.data.head? = some '#' →
        (splitFirstEq (l.data.drop 1)).isSome = true := by
  induction lines with
  | nil =>
    intro meta body
    simp [scoreParseAux, Except.isOk, Except.toBool]
  | cons l rest ih =>
    intro meta body
    rw [scoreParseAux]
    by_cases hc : l.data.head? = some ';'
    · rw [if_pos hc]
      rw [ih]
      constructor
      · intro h t ht hth
        rcases List.mem_cons.mp ht with rfl | htr
        · rw [hc] at hth; exact absurd hth (by decide)
        · exact h t htr hth
      · intro h t ht hth
        exact h t (List.mem_cons_of_mem _ ht) hth
    · rw [if_neg hc]
      by_cases hh : l.data.head? = some '#'
      · rw [if_pos hh]
        match hsp : splitFirstEq (l.data.drop 1) with
        | none =>
            simp only [Except.isOk, Except.toBool]
            constructor
            · intro h; exact absurd h (by decide)
            · intro h
              have := h l (List.mem_cons_self l rest) hh
              rw [hsp] at this
              exact absurd this (by decide)
        | some (k, v) =>
            rw [ih]
            constructor
            · intro h t ht hth
              rcases List.mem_cons.mp ht with rfl | htr
              · rw [hsp]; rfl
              · exact h t htr hth
            · intro h t ht hth
              exact h t (List.mem_cons_of_mem _ ht) hth
      · rw [if_neg hh]
        rw [ih]
        constructor
        · intro h t ht hth
          rcases List.mem_cons.mp ht with rfl | htr
          · exact absurd hth hh
          · exact h t htr hth
        · intro h t ht hth
          exact h t (List.mem_cons_of_mem _ ht) hth

/-- The metadata accumulator only grows across the tokenizer line
loop. -/
theorem scoreParseAux_meta_mono (lines : List String) :
    ∀ meta body m b, scoreParseAux lines meta body = Except.ok (m, b) →
      ∀ x, x ∈ meta → x ∈ m := by
  induction lines with
  | nil =>
    intro meta body m b h x hx
    simp only [scoreParseAux] at h
    obtain ⟨hm, -⟩ := Prod.mk.injEq .. ▸ Except.ok.inj h
    rw [← hm]
    exact hx
  | cons l rest ih =>
    intro meta body m b h x hx
    rw [scoreParseAux] at h
    by_cases hc : l.data.head? = some ';'
    · rw [if_pos hc] at h
      exact ih _ _ _ _ h x hx
    · rw [if_neg hc] at h
      by_cases hh : l.data.head? = some '#'
      · rw [if_pos hh] at h
        match hsp : splitFirstEq (l.data.drop 1) with
        | none => rw [hsp] at h; exact absurd h (by simp)
        | some (k, v) =>
            rw [hsp] at h
            exact ih _ _ _ _ h x (List.mem_cons_of_mem _ hx)
      · rw [if_neg hh] at h
        exact ih _ _ _ _ h x hx

/-- Every hash line processed by the tokenizer line loop deposits its
trimmed upper-cased key and trimmed value in the final metadata map. -/
theorem scoreParseAux_meta_mem (lines : List String) :
    ∀ meta body m b, scoreParseAux lines meta body = Except.ok (m, b) →
      ∀ l ∈ lines, l.data.head? = some '#' →
        ∀ k v, splitFirstEq (l.data.drop 1) = some (k, v) →
          (strUpper (strStrip (String.mk k)), strStrip (String.mk v)) ∈ m := by
  induction lines with
  | nil =>
    intro meta body m b h l hl
    exact absurd hl (List.not_mem_nil l)
  | cons l0 rest ih =>
    intro meta body m b h l hl hlh k v hkv
    rw [scoreParseAux] at h
    by_cases hc : l0.data.head? = some ';'
    · rw [if_pos hc] at h
      rcases List.mem_cons.mp hl with rfl | hlr
      · rw [hc] at hlh; exact absurd hlh (by decide)
      · exact ih _ _ _ _ h l hlr hlh k v hkv
    · rw [if_neg hc] at h
      by_cases hh : l0.data.head? = some '#'
      · rw [if_pos hh] at h
        match hsp : splitFirstEq (l0.data.drop 1) with
        | none => rw [hsp] at h; exact absurd h (by simp)
        | some (k0, v0) =>
            rw [hsp] at h
            rcases List.mem_cons.mp hl with rfl | hlr
            · rw [hsp] at hkv
              obtain ⟨hk, hv⟩ := Prod.mk.injEq .. ▸ Option.some.inj hkv
              rw [← hk, ← hv]
              exact scoreParseAux_meta_mono rest _ _ _ _ h _
                (List.mem_cons_self _ _)
            · exact ih _ _ _ _ h l hlr hlh k v hkv
      · rw [if_neg hh] at h
        rcases List.mem_cons.mp hl with rfl | hlr
        · exact absurd hlh hh
        · exact ih _ _ _ _ h l hlr hlh k v hkv

/-- Claim C9 (amended): every kept line whose first character is a hash,
wherever it appears, is processed as a header assignment: the parse
succeeds exactly when every such line contains an equals sign, in which
case the trimmed upper-cased key and trimmed value land in the metadata
map; and the token list is built exclusively from the non-comment
non-hash lines, so no token originating from a hash line ever reaches
the compiler. -/
theorem C9_hash_lines_never_tokens (text : String) :
    (∀ m toks, scoreParse text = Except.ok (m, toks) →
      toks = ((scoreKeptLines text).filter isBodyLine).flatMap pySplit ∧
      (∀ l ∈ scoreKeptLines text, l.data.head? = some '#' →
        ∀ k v, splitFirstEq (l.data.drop 1) = some (k, v) →
          (strUpper (strStrip (String.mk k)), strStrip (String.mk v)) ∈ m)) ∧
    ((scoreParse text).isOk = true ↔
      ∀ l ∈ scoreKeptLines text, l.data.head? = some '#' →
        (splitFirstEq (l.data.drop 1)).isSome = true) := by
  constructor
  · intro m toks h
    rw [scoreParse] at h
    match haux : scoreParseAux (scoreKeptLines text) [] [] with
    | .error e => rw [haux] at h; exact absurd h (by simp [Except.map])
    | .ok (m0, body) =>
        rw [haux] at h
        simp only [Except.map] at h
        obtain ⟨hm, ht⟩ := Prod.mk.injEq .. ▸ Except.ok.inj h
        constructor
        · rw [← ht]
          have := scoreParseAux_body (scoreKeptLines text) [] [] m0 body haux
          simp at this
          rw [this]
        · intro l hl hlh k v hkv
          rw [← hm]
          exact scoreParseAux_meta_mem (scoreKeptLines text) [] [] m0 body
            haux l hl hlh k v hkv
  · rw [scoreParse]
    have hiso : (Except.map
        (fun (r : List (String × String) × List String) =>
          (r.1, r.2.flatMap pySplit))
        (scoreParseAux (scoreKeptLines text) [] [])).isOk =
        (scoreParseAux (scoreKeptLines text) [] []).isOk := by
      match scoreParseAux (scoreKeptLines text) [] [] with
      | .error e => rfl
      | .ok r => rfl
    rw [hiso]
    exact scoreParseAux_ok (scoreKeptLines text) [] []

/-- Counterexample for claim C9 as stated: the hash line of the input
text has no equals sign, so it is not entered into the metadata map as a
header assignment; the tokenizer instead aborts with ValueError. -/
theorem C9_hash_line_without_equals_errors :
    scoreParse "#foo" = Except.error PyError.valueError := by decide

/-- Witness for claim C9 at a concrete two-line input: the hash line
deposits its assignment in the metadata and the tokens come only from
the body line. -/
theorem C9_hash_lines_never_tokens_witness :
    (∀ m toks,
      scoreParse "#A=B\n1 2" = Except.ok (m, toks) →
      toks = ((scoreKeptLines "#A=B\n1 2").filter isBodyLine).flatMap
        pySplit ∧
      (∀ l ∈ scoreKeptLines "#A=B\n1 2", l.data.head? = some '#' →
        ∀ k v, splitFirstEq (l.data.drop 1) = some (k, v) →
          (strUpper (strStrip (String.mk k)), strStrip (String.mk v)) ∈ m)) ∧
    ((scoreParse "#A=B\n1 2").isOk = true ↔
      ∀ l ∈ scoreKeptLines "#A=B\n1 2", l.data.head? = some '#' →
        (splitFirstEq (l.data.drop 1)).isSome = true) :=
  C9_hash_lines_never_tokens "#A=B\n1 2"

/-- Counterexample for claim C4 as stated: compiling the single token 1h
(a half-note melody) in default 4/4 leaves the final implicit measure two
beats short.  The compiler pads by advancing absolute time and appending
a pad release directly to the melody stream, but contrary to the claim it
does not advance the pending melody delta (which stays 0 rather than
gaining the 960 pad ticks) and does not reset the per-measure accumulator
(which stays 2 rather than 0). -/
theorem C4_final_measure_counterexample :
    buildErr (buildMidiDefault [] ["1h"]) = none ∧
    ((buildState (buildMidiDefault [] ["1h"])).measureBeats).req
      (PyQ.ofInt 2) = true ∧
    (buildState (buildMidiDefault [] ["1h"])).deltaMelody = 0 ∧
    (buildState (buildMidiDefault [] ["1h"])).melody =
      [⟨EvKind.meta, 0, 0, 0, 0⟩, ⟨EvKind.meta, 0, 0, 0, 0⟩,
       ⟨EvKind.meta, 0, 0, 0, 0⟩,
       ⟨EvKind.on, 0, 60, 64, 0⟩, ⟨EvKind.off, 0, 60, 64, 960⟩,
       ⟨EvKind.off, 0, 0, 0, 960⟩, ⟨EvKind.meta, 0, 0, 0, 0⟩] := by
  refine ⟨by decide, by decide, by decide, by decide⟩

theorem negEps_toRat : negEps.toRat = -(1/1000000 : ℚ) := by
  norm_num [negEps, PyQ.toRat, PyQ.mk']

theorem epsQ_toRat : epsQ.toRat = (1/1000000 : ℚ) := by
  norm_num [epsQ, PyQ.toRat, PyQ.mk']

/-- Claim C4 (amended): at every measure boundary and at the final
implicit measure, exceeding the time signature's beat count by more than
epsilon raises the fatal validation error; an exact sum raises no error
and pads nothing; a shortfall at an interior bar line (while recording)
pads by advancing absolute time and the pending melody delta and resets
the accumulator to zero; a shortfall at end of input pads by advancing
absolute time and appending a pad release directly to the melody stream,
leaving the pending delta and the accumulator unchanged. -/
theorem C4_measure_boundary_checks (p : BuildParams) (st : BState) :
    (p.beatsPerMeasure.toRat - st.measureBeats.toRat < -(1/1000000 : ℚ) →
      barlineStep p st = Except.error (PyError.valueError, st) ∧
      finalizeBuild p st = Except.error (PyError.valueError, st)) ∧
    (p.beatsPerMeasure.toRat = st.measureBeats.toRat →
      barlineStep p st = Except.ok { st with
        measureStartTick := st.curTick,
        measureBeats := PyQ.ofInt 0,
        currentMeasure := st.currentMeasure + 1,
        isRecording := decide (p.fromMeasure ≤ st.currentMeasure + 1) } ∧
      ∃ stf, finalizeBuild p st = Except.ok stf ∧
        stf.measureBeats = st.measureBeats ∧
        stf.deltaMelody = st.deltaMelody ∧
        stf.curTick = st.curTick ∧
        stf.melody = st.melody ++ [⟨EvKind.meta, 0, 0, 0, 0⟩]) ∧
    ((1/1000000 : ℚ) < p.beatsPerMeasure.toRat - st.measureBeats.toRat →
      (st.isRecording = true →
        barlineStep p st = Except.ok { st with
          deltaMelody := st.deltaMelody +
            pyInt ((p.beatsPerMeasure.sub st.measureBeats).mul
              (PyQ.ofInt TICKS_PER_BEAT)),
          curTick := st.curTick +
            pyInt ((p.beatsPerMeasure.sub st.measureBeats).mul
              (PyQ.ofInt TICKS_PER_BEAT)),
          measureStartTick := st.curTick +
            pyInt ((p.beatsPerMeasure.sub st.measureBeats).mul
              (PyQ.ofInt TICKS_PER_BEAT)),
          measureBeats := PyQ.ofInt 0,
          currentMeasure := st.currentMeasure + 1,
          isRecording := decide (p.fromMeasure ≤ st.currentMeasure + 1) }) ∧
      ∃ stf, finalizeBuild p st = Except.ok stf ∧
        stf.measureBeats = st.measureBeats ∧
        stf.deltaMelody = st.deltaMelody ∧
        stf.curTick = st.curTick +
          pyInt ((p.beatsPerMeasure.sub st.measureBeats).mul
            (PyQ.ofInt TICKS_PER_BEAT)) ∧
        stf.melody = st.melody ++
          [⟨EvKind.off, 0, 0, 0,
            pyInt ((p.beatsPerMeasure.sub st.measureBeats).mul
              (PyQ.ofInt TICKS_PER_BEAT))⟩,
           ⟨EvKind.meta, 0, 0, 0, 0⟩]) := by
  have hsub : (p.beatsPerMeasure.sub st.measureBeats).toRat =
      p.beatsPerMeasure.toRat - st.measureBeats.toRat :=
    PyQ.toRat_sub _ _
  refine ⟨?_, ?_, ?_⟩
  · intro hov
    have hlt : (p.beatsPerMeasure.sub st.measureBeats).lt negEps = true := by
      rw [PyQ.lt_iff, hsub, negEps_toRat]
      exact hov
    constructor
    · rw [barlineStep, if_pos hlt]
    · rw [finalizeBuild, if_pos hlt]
  · intro hex
    have hlt1 : (p.beatsPerMeasure.sub st.measureBeats).lt negEps = false := by
      rw [Bool.eq_false_iff]
      intro hc
      rw [PyQ.lt_iff, hsub, negEps_toRat, hex] at hc
      norm_num at hc
    have hlt2 : epsQ.lt (p.beatsPerMeasure.sub st.measureBeats) = false := by
      rw [Bool.eq_false_iff]
      intro hc
      rw [PyQ.lt_iff, hsub, epsQ_toRat, hex] at hc
      norm_num at hc
    constructor
    · rw [barlineStep, if_neg (by rw [hlt1]; exact Bool.false_ne_true),
        if_neg (by rw [hlt2]; simp)]
    · rw [finalizeBuild, if_neg (by rw [hlt1]; exact Bool.false_ne_true),
        if_neg (by rw [hlt2]; exact Bool.false_ne_true)]
      dsimp only
      refine ⟨_, rfl, ?_, ?_, ?_, ?_⟩ <;>
        by_cases hca : st.chordActive ≠ [] <;> simp [hca]
  · intro hun
    have hlt1 : (p.beatsPerMeasure.sub st.measureBeats).lt negEps = false := by
      rw [Bool.eq_false_iff]
      intro hc
      rw [PyQ.lt_iff, hsub, negEps_toRat] at hc
      linarith
    have hlt2 : epsQ.lt (p.beatsPerMeasure.sub st.measureBeats) = true := by
      rw [PyQ.lt_iff, hsub, epsQ_toRat]
      exact hun
    constructor
    · intro hrec
      rw [barlineStep, if_neg (by rw [hlt1]; exact Bool.false_ne_true),
        if_pos (by simp [hlt2, hrec])]
    · rw [finalizeBuild, if_neg (by rw [hlt1]; exact Bool.false_ne_true),
        if_pos (by simp [hlt2])]
      dsimp only
      refine ⟨_, rfl, ?_, ?_, ?_, ?_⟩ <;>
        by_cases hca : st.chordActive ≠ [] <;> simp [hca]

/-- Witness for claim C4 in default 4/4 parameters: a five-beat measure
errors at the bar line, a four-beat measure finalizes without error, and
a two-beat measure at a bar line while recording pads the pending delta
by 960 ticks and resets the accumulator. -/
theorem C4_measure_boundary_checks_witness :
    barlineStep
      ⟨PyQ.ofInt 1, 120, "C", 4, 4, PyQ.mk' 16 4 (by omega),
        Strategy.block 64, 0, none⟩
      { bstate0 with measureBeats := PyQ.ofInt 5 } =
      Except.error (PyError.valueError,
        { bstate0 with measureBeats := PyQ.ofInt 5 }) ∧
    (finalizeBuild
      ⟨PyQ.ofInt 1, 120, "C", 4, 4, PyQ.mk' 16 4 (by omega),
        Strategy.block 64, 0, none⟩
      { bstate0 with measureBeats := PyQ.ofInt 4 }).isOk = true ∧
    (∃ st', barlineStep
      ⟨PyQ.ofInt 1, 120, "C", 4, 4, PyQ.mk' 16 4 (by omega),
        Strategy.block 64, 0, none⟩
      { bstate0 with measureBeats := PyQ.ofInt 2 } = Except.ok st' ∧
      st'.deltaMelody = 960 ∧ st'.measureBeats = PyQ.ofInt 0) := by
  refine ⟨?_, ?_, ?_⟩
  · exact ((C4_measure_boundary_checks
      ⟨PyQ.ofInt 1, 120, "C", 4, 4, PyQ.mk' 16 4 (by omega),
        Strategy.block 64, 0, none⟩
      { bstate0 with measureBeats := PyQ.ofInt 5 }).1
      (by norm_num [PyQ.toRat, PyQ.mk', PyQ.ofInt, bstate0])).1
  · obtain ⟨-, stf, hf, -⟩ := (C4_measure_boundary_checks
      ⟨PyQ.ofInt 1, 120, "C", 4, 4, PyQ.mk' 16 4 (by omega),
        Strategy.block 64, 0, none⟩
      { bstate0 with measureBeats := PyQ.ofInt 4 }).2.1
      (by norm_num [PyQ.toRat, PyQ.mk', PyQ.ofInt, bstate0])
    rw [hf]
    rfl
  · have hb := ((C4_measure_boundary_checks
      ⟨PyQ.ofInt 1, 120, "C", 4, 4, PyQ.mk' 16 4 (by omega),
        Strategy.block 64, 0, none⟩
      { bstate0 with measureBeats := PyQ.ofInt 2 }).2.2
      (by norm_num [PyQ.toRat, PyQ.mk', PyQ.ofInt, bstate0])).1
      (by rfl)
    exact ⟨_, hb, by decide, rfl⟩

/-- Claim C1 (code bug, failing input): on a score whose first chord C is
followed by a half note and then chord G, the compiler computes the
intervening span (960 ticks) exactly as the claim describes, but its
strategy call passes the fixed whole-measure tick count (1920) as the
duration argument instead, and passes seven positional arguments to the
five-parameter generate_events, so the call raises TypeError and no
returned last-event tick is ever recorded. -/
theorem C1_strategy_call_code_bug :
    buildErr (buildMidiDefault [] ["C", "1h", "G", "1h"]) =
      some PyError.typeError ∧
    spanLoop (PyQ.ofInt 1) ["1h"] = Except.ok 960 ∧
    (headerParams [] 0 none).toOption.map
      (fun p => pyInt (p.beatsPerMeasure.mul (PyQ.ofInt TICKS_PER_BEAT))) =
      some 1920 ∧
    buildCallArgCount ≠ generateEventsParamCount := by
  refine ⟨by decide, by decide, ?_, by decide⟩
  decide

/-- The onset predicate for a pitch. -/
def isOnOf (p : Int) (e : MidiMsg) : Bool := e.kind == EvKind.on && e.note == p

/-- The release predicate for a pitch. -/
def isOffOf (p : Int) (e : MidiMsg) : Bool := e.kind == EvKind.off && e.note == p

/-- Number of onsets of the pitch p in an event list. -/
def onCount (p : Int) (evs : List MidiMsg) : Nat := evs.countP (isOnOf p)

/-- Number of releases of the pitch p in an event list. -/
def offCount (p : Int) (evs : List MidiMsg) : Nat := evs.countP (isOffOf p)

/-- Matching of onsets and releases in an event stream: for every pitch,
releases and onsets balance over the whole stream, and no prefix holds
more releases than onsets.  This is the parenthesis-matching criterion:
it holds exactly when every onset can be paired injectively with a later
release of the same pitch. -/
def wellMatched (evs : List MidiMsg) : Prop :=
  ∀ p : Int, offCount p evs = onCount p evs ∧
    ∀ k : Nat, offCount p (evs.take k) ≤ onCount p (evs.take k)

theorem wellMatched_nil : wellMatched [] := by
  intro p
  exact ⟨rfl, fun k => by simp [onCount, offCount]⟩

theorem wellMatched_append (a b : List MidiMsg) (ha : wellMatched a)
    (hb : wellMatched b) : wellMatched (a ++ b) := by
  intro p
  obtain ⟨hat, hap⟩ := ha p
  obtain ⟨hbt, hbp⟩ := hb p
  constructor
  · simp only [onCount, offCount, List.countP_append] at *
    omega
  · intro k
    rw [List.take_append_eq_append_take]
    simp only [onCount, offCount, List.countP_append] at *
    exact Nat.add_le_add (hap k) (hbp (k - a.length))

theorem onCount_mapOn (p v r : Int) (ns : List Int) :
    onCount p (ns.map (fun m => mkOn m v r)) = ns.count p := by
  rw [onCount, List.countP_map, List.count]
  refine List.countP_congr (fun a _ => ?_)
  simp [isOnOf, mkOn, Function.comp]

theorem offCount_mapOn (p v r : Int) (ns : List Int) :
    offCount p (ns.map (fun m => mkOn m v r)) = 0 := by
  rw [offCount, List.countP_map, List.countP_eq_zero]
  intro a _
  simp [isOffOf, mkOn, Function.comp]

theorem onCount_mapOff (p : Int) (ns : List Int) :
    onCount p (ns.map (fun m => mkOff m 0)) = 0 := by
  rw [onCount, List.countP_map, List.countP_eq_zero]
  intro a _
  simp [isOnOf, mkOff, Function.comp]

theorem offCount_mapOff (p : Int) (ns : List Int) :
    offCount p (ns.map (fun m => mkOff m 0)) = ns.count p := by
  rw [offCount, List.countP_map, List.count]
  refine List.countP_congr (fun a _ => ?_)
  simp [isOffOf, mkOff, Function.comp]

theorem onCount_onsStrum (p v dt r : Int) (L : List Int) :
    onCount p (onsStrum v dt r L) = L.count p := by
  cases L with
  | nil => rfl
  | cons n ns =>
    rw [onsStrum, onCount, List.countP_cons]
    have h1 := onCount_mapOn p v r ns
    rw [onCount] at h1
    rw [h1, List.count_cons]
    simp [isOnOf, mkOn]

theorem offCount_onsStrum (p v dt r : Int) (L : List Int) :
    offCount p (onsStrum v dt r L) = 0 := by
  cases L with
  | nil => rfl
  | cons n ns =>
    rw [onsStrum, offCount, List.countP_cons]
    have h1 := offCount_mapOn p v r ns
    rw [offCount] at h1
    rw [h1]
    simp [isOffOf, mkOn]

theorem onCount_offsFirst (p dt : Int) (L : List Int) :
    onCount p (offsFirst dt L) = 0 := by
  cases L with
  | nil => rfl
  | cons n ns =>
    rw [offsFirst, onCount, List.countP_cons]
    have h1 := onCount_mapOff p ns
    rw [onCount] at h1
    rw [h1]
    simp [isOnOf, mkOff]

theorem offCount_offsFirst (p dt : Int) (L : List Int) :
    offCount p (offsFirst dt L) = L.count p := by
  cases L with
  | nil => rfl
  | cons n ns =>
    rw [offsFirst, offCount, List.countP_cons]
    have h1 := offCount_mapOff p ns
    rw [offCount] at h1
    rw [h1, List.count_cons]
    simp [isOffOf, mkOff]

/-- An onset block followed by a release block over the same pitch list
is well matched: the releases sit strictly after all the onsets. -/
theorem wellMatched_block (v dt r d : Int) (L : List Int) :
    wellMatched (onsStrum v dt r L ++ offsFirst d L) := by
  intro p
  constructor
  · simp only [onCount, offCount, List.countP_append]
    have h1 := onCount_onsStrum p v dt r L
    have h2 := offCount_onsStrum p v dt r L
    have h3 := onCount_offsFirst p d L
    have h4 := offCount_offsFirst p d L
    simp only [onCount, offCount] at h1 h2 h3 h4
    omega
  · intro k
    rw [List.take_append_eq_append_take]
    simp only [onCount, offCount, List.countP_append]
    have hlen : (onsStrum v dt r L).length = L.length := by
      cases L with
      | nil => rfl
      | cons n ns => simp [onsStrum]
    by_cases hk : k ≤ (onsStrum v dt r L).length
    · have htake : (offsFirst d L).take (k - (onsStrum v dt r L).length) = [] := by
        have : k - (onsStrum v dt r L).length = 0 := by omega
        rw [this, List.take_zero]
      rw [htake]
      have h2 : (onsStrum v dt r L).countP (isOffOf p) = 0 := by
        have := offCount_onsStrum p v dt r L
        rwa [offCount] at this
      have h2t : ((onsStrum v dt r L).take k).countP (isOffOf p) = 0 := by
        have hle := List.Sublist.countP_le (isOffOf p)
          (List.take_sublist k (onsStrum v dt r L))
        omega
      simp [h2t]
    · have htake : (onsStrum v dt r L).take k = onsStrum v dt r L := by
        exact List.take_of_length_le (by omega)
      rw [htake]
      have h1 : (onsStrum v dt r L).countP (isOnOf p) = L.count p := by
        have := onCount_onsStrum p v dt r L
        rwa [onCount] at this
      have h2 : (onsStrum v dt r L).countP (isOffOf p) = 0 := by
        have := offCount_onsStrum p v dt r L
        rwa [offCount] at this
      have h3 : ((offsFirst d L).take (k - (onsStrum v dt r L).length)).countP
          (isOnOf p) = 0 := by
        have hz := onCount_offsFirst p d L
        rw [onCount] at hz
        have hle := List.Sublist.countP_le (isOnOf p)
          (List.take_sublist (k - (onsStrum v dt r L).length) (offsFirst d L))
        omega
      have h4 : ((offsFirst d L).take (k - (onsStrum v dt r L).length)).countP
          (isOffOf p) ≤ L.count p := by
        have hz := offCount_offsFirst p d L
        rw [offCount] at hz
        have hle := List.Sublist.countP_le (isOffOf p)
          (List.take_sublist (k - (onsStrum v dt r L).length) (offsFirst d L))
        omega
      omega

/-- An onset and release pair of the same pitch is well matched. -/
theorem wellMatched_pair (v t d n : Int) :
    wellMatched [mkOn n v t, mkOff n d] := by
  have h := wellMatched_block v t 0 d [n]
  simpa [onsStrum, offsFirst] using h

/-- The interleaved onset and release pairs of the arpeggio strategy are
well matched. -/
theorem wellMatched_arpPairs (v d : Int) :
    ∀ (t : Int) (L : List Int), wellMatched (arpPairs v d t L) := by
  intro t L
  induction L generalizing t with
  | nil => exact wellMatched_nil
  | cons n ns ih =>
    have hsh : arpPairs v d t (n :: ns) =
        [mkOn n v t, mkOff n d] ++ arpPairs v d 0 ns := by
      simp [arpPairs]
    rw [hsh]
    exact wellMatched_append _ _ (wellMatched_pair v t d n) (ih 0)

/-- The event stream of the rhythmic arpeggio pairs is well matched. -/
theorem wellMatched_rhythmicPairs (v u rem : Int) (notes : List Int) :
    ∀ (idxs : List Nat) (t : Int) (evs : List MidiMsg),
      rhythmicPairs v u rem notes t idxs = Except.ok evs →
      wellMatched evs := by
  intro idxs
  induction idxs with
  | nil =>
    intro t evs h
    simp only [rhythmicPairs] at h
    rw [← Except.ok.inj h]
    exact wellMatched_nil
  | cons idx rest ih =>
    intro t evs h
    rw [rhythmicPairs] at h
    match hnote : chordGetItem notes (idx : Int) with
    | .error e =>
        rw [hnote] at h
        exact absurd h (by simp [Except.bind, Bind.bind])
    | .ok note =>
        rw [hnote] at h
        simp only [Except.bind, Bind.bind] at h
        match htail : rhythmicPairs v u rem notes 0 rest with
        | .error e =>
            rw [htail] at h
            exact absurd h (by simp)
        | .ok tail =>
            rw [htail] at h
            simp only [pure, Except.pure] at h
            have hevs := Except.ok.inj h
            rw [← hevs]
            have hsh : mkOn note v t ::
                mkOff note (if rest = [] then rem else u) :: tail =
                [mkOn note v t, mkOff note (if rest = [] then rem else u)] ++
                  tail := by simp
            rw [hsh]
            exact wellMatched_append _ _ (wellMatched_pair _ _ _ _)
              (ih 0 tail htail)

/-- The event stream of the advanced guitar unit loop is well matched:
every unit is an onset block followed by a release block over the same
selected notes. -/
theorem wellMatched_advLoop (vel strumTime unitTicks lastUnitTicks : Int)
    (notes : List Int) :
    ∀ (pat : List Stroke) (dtHead : Int),
      wellMatched (advLoop vel strumTime unitTicks lastUnitTicks notes
        pat dtHead).1 := by
  intro pat
  induction pat with
  | nil =>
    intro dtHead
    exact wellMatched_nil
  | cons stroke rest ih =>
    intro dtHead
    rw [advLoop]
    dsimp only
    exact wellMatched_append _ _
      (wellMatched_block _ _ _ _ _) (ih 0)

/-- Sum of the delta-times of an event list. -/
def deltaSum (evs : List MidiMsg) : Int := (evs.map (fun e => e.time)).sum

/-- The event list up to and including its last release event. -/
def trimToLastOff (evs : List MidiMsg) : List MidiMsg :=
  (evs.reverse.dropWhile (fun e => e.kind != EvKind.off)).reverse

/-- Absolute tick of the last release in an event list appended to a
track whose previous event sits at lastTick. -/
def lastReleaseTick (lastTick : Int) (evs : List MidiMsg) : Int :=
  lastTick + deltaSum (trimToLastOff evs)

theorem deltaSum_append (a b : List MidiMsg) :
    deltaSum (a ++ b) = deltaSum a + deltaSum b := by
  simp [deltaSum]

theorem trimToLastOff_of_last_off (evs : List MidiMsg) (e : MidiMsg)
    (hl : evs.getLast? = some e) (he : e.kind = EvKind.off) :
    trimToLastOff evs = evs := by
  rw [trimToLastOff]
  cases hr : evs.reverse with
  | nil =>
    rw [List.reverse_eq_nil_iff] at hr
    rw [hr] at hl
    exact absurd hl (by simp)
  | cons a t =>
    have hae : a = e := by
      have h1 : evs.getLast? = evs.reverse.head? := by
        rw [List.getLast?_eq_head?_reverse]
      rw [h1, hr] at hl
      exact Option.some.inj hl
    rw [List.dropWhile_cons]
    have hpred : ((a.kind != EvKind.off) = true) = False := by
      simp [hae, he]
    rw [if_neg (by simp [hae, he])]
    rw [← hr, List.reverse_reverse]

theorem deltaSum_mapOn (v r : Int) (ns : List Int) :
    deltaSum (ns.map (fun m => mkOn m v r)) = r * ns.length := by
  induction ns with
  | nil => simp [deltaSum]
  | cons a t ih =>
    simp only [List.map_cons, deltaSum, List.sum_cons, mkOn] at *
    rw [ih, List.length_cons]
    push_cast
    ring

theorem deltaSum_mapOff (ns : List Int) :
    deltaSum (ns.map (fun m => mkOff m 0)) = 0 := by
  induction ns with
  | nil => simp [deltaSum]
  | cons a t ih =>
    simp only [List.map_cons, deltaSum, List.sum_cons, mkOff] at *
    omega

theorem deltaSum_onsStrum (v dt r : Int) (L : List Int) (h : L ≠ []) :
    deltaSum (onsStrum v dt r L) = dt + r * ((L.length : Int) - 1) := by
  cases L with
  | nil => exact absurd rfl h
  | cons n ns =>
    rw [onsStrum]
    have h1 : deltaSum (mkOn n v dt :: ns.map (fun m => mkOn m v r)) =
        dt + deltaSum (ns.map (fun m => mkOn m v r)) := by
      simp [deltaSum, mkOn]
    rw [h1, deltaSum_mapOn]
    simp only [List.length_cons]
    push_cast
    ring

theorem deltaSum_offsFirst (d : Int) (L : List Int) (h : L ≠ []) :
    deltaSum (offsFirst d L) = d := by
  cases L with
  | nil => exact absurd rfl h
  | cons n ns =>
    rw [offsFirst]
    have h1 : deltaSum (mkOff n d :: ns.map (fun m => mkOff m 0)) =
        d + deltaSum (ns.map (fun m => mkOff m 0)) := by
      simp [deltaSum, mkOff]
    rw [h1, deltaSum_mapOff]
    omega

/-- Every element of a release block is a release. -/
theorem offsFirst_kinds (d : Int) (L : List Int) :
    ∀ e ∈ offsFirst d L, e.kind = EvKind.off := by
  cases L with
  | nil => intro e he; exact absurd he (by simp [offsFirst])
  | cons n ns =>
    intro e he
    rw [offsFirst] at he
    rcases List.mem_cons.mp he with rfl | hm
    · rfl
    · obtain ⟨m, -, rfl⟩ := List.mem_map.mp hm
      rfl

/-- A release block over a non-empty pitch list is non-empty. -/
theorem offsFirst_ne_nil (d : Int) (L : List Int) (h : L ≠ []) :
    offsFirst d L ≠ [] := by
  cases L with
  | nil => exact absurd rfl h
  | cons n ns => simp [offsFirst]

/-- A list ending in a release block over a non-empty pitch list has a
release as its last element. -/
theorem getLast_append_offsFirst (a : List MidiMsg) (d : Int)
    (L : List Int) (h : L ≠ []) :
    ∃ e, (a ++ offsFirst d L).getLast? = some e ∧ e.kind = EvKind.off := by
  have hne := offsFirst_ne_nil d L h
  have h1 : (a ++ offsFirst d L).getLast? = (offsFirst d L).getLast? :=
    List.getLast?_append_of_ne_nil _ hne
  match hg : (offsFirst d L).getLast? with
  | none =>
      rw [List.getLast?_eq_none_iff] at hg
      exact absurd hg hne
  | some e =>
      refine ⟨e, by rw [h1, hg], ?_⟩
      have hmem : e ∈ offsFirst d L := by
        have h2 := List.getLast?_eq_getLast (offsFirst d L) hne
        rw [h2] at hg
        have h3 := Option.some.inj hg
        rw [← h3]
        exact List.getLast_mem hne
      exact offsFirst_kinds d L e hmem

theorem insertSorted_length (x : Int) (l : List Int) :
    (insertSorted x l).length = l.length + 1 := by
  induction l with
  | nil => rfl
  | cons y ys ih =>
    rw [insertSorted]
    by_cases h : x ≤ y
    · rw [if_pos h]; rfl
    · rw [if_neg h, List.length_cons, ih]; rfl

theorem sortInts_length (l : List Int) : (sortInts l).length = l.length := by
  induction l with
  | nil => rfl
  | cons x xs ih =>
    rw [sortInts, List.foldr_cons, ← sortInts, insertSorted_length, ih]
    rfl

/-- Delta total and final release of the rhythmic arpeggio pairs: the
deltas sum to the initial gap plus one unit per non-final pair plus the
remainder, and the stream ends in a release. -/
theorem rhythmicPairs_shape (v u rem : Int) (notes : List Int) :
    ∀ (idxs : List Nat) (t : Int) (evs : List MidiMsg), idxs ≠ [] →
      rhythmicPairs v u rem notes t idxs = Except.ok evs →
      deltaSum evs = t + ((idxs.length : Int) - 1) * u + rem ∧
      ∃ e, evs.getLast? = some e ∧ e.kind = EvKind.off := by
  intro idxs
  induction idxs with
  | nil => intro t evs h; exact absurd rfl h
  | cons idx rest ih =>
    intro t evs _ h
    rw [rhythmicPairs] at h
    match hnote : chordGetItem notes (idx : Int) with
    | .error e => rw [hnote] at h; exact absurd h (by simp [Except.bind, Bind.bind])
    | .ok note =>
        rw [hnote] at h
        simp only [Except.bind, Bind.bind] at h
        match htail : rhythmicPairs v u rem notes 0 rest with
        | .error e => rw [htail] at h; exact absurd h (by simp)
        | .ok tail =>
            rw [htail] at h
            simp only [pure, Except.pure] at h
            have hevs := Except.ok.inj h
            cases hrest : rest with
            | nil =>
              rw [hrest] at htail
              simp only [rhythmicPairs] at htail
              have htl := Except.ok.inj htail
              rw [← hevs, ← htl, hrest]
              constructor
              · simp [deltaSum, mkOn, mkOff]
              · refine ⟨mkOff note rem, ?_, rfl⟩
                simp [List.getLast?]
            | cons i2 r2 =>
              have hrne : rest ≠ [] := by rw [hrest]; simp
              obtain ⟨hds, e, hlast, he⟩ := ih 0 tail hrne htail
              have htne : tail ≠ [] := by
                intro hc
                rw [hc] at hlast
                exact absurd hlast (by simp)
              have hoff : (if rest = [] then rem else u) = u := by
                rw [if_neg hrne]
              rw [← hevs, hoff]
              constructor
              · have : deltaSum (mkOn note v t :: mkOff note u :: tail) =
                    t + u + deltaSum tail := by
                  simp [deltaSum, mkOn, mkOff]
                  ring
                rw [this, hds, hrest]
                simp only [List.length_cons]
                push_cast
                ring
              · have hsh : mkOn note v t :: mkOff note u :: tail =
                    [mkOn note v t, mkOff note u] ++ tail := by simp
                rw [hsh, List.getLast?_append_of_ne_nil _ htne]
                exact ⟨e, hlast, he⟩

/-- The strategies for which the elapsed-span guarantee of the spec
holds on the code: block, guitar strums and rhythmic arpeggio.  The
plain arpeggio strategy truncates by integer division and the advanced
guitar strategy truncates at muted strokes, so the guarantee fails for
them (see the arpeggio counterexample). -/
def Strategy.spanGuaranteed : Strategy → Prop
  | .block _ => True
  | .guitar _ _ => True
  | .rhythmic _ _ => True
  | .arpeggio _ => False
  | .advGuitar _ _ _ => False

/-- Claim C5 (amended): for every strategy, every non-empty pitch list,
and every duration at least 1, the emitted stream is well matched (every
onset has a matching later release of the same pitch); and for the
block, guitar-strums and rhythmic strategies the last emitted release
falls at least durationTicks after startTick.  The arpeggio strategy
violates the span bound (see the counterexample), as can the advanced
guitar strategy at muted strokes. -/
theorem C5_strategy_contracts (str : Strategy) (notes : List Int)
    (s d l : Int) (hn : notes ≠ []) (hd : 1 ≤ d) :
    (∀ evs ret, str.generate notes s d l = Except.ok (evs, ret) →
      wellMatched evs) ∧
    (str.spanGuaranteed →
      ∀ evs ret, str.generate notes s d l = Except.ok (evs, ret) →
        d ≤ lastReleaseTick l evs - s) := by
  cases str with
  | block v =>
    constructor
    · intro evs ret h
      simp only [Strategy.generate] at h
      have hp := Except.ok.inj h
      rw [blockGenerate, if_neg hn] at hp
      obtain ⟨h1, -⟩ := Prod.mk.injEq .. ▸ hp
      rw [← h1]
      exact wellMatched_block _ _ _ _ _
    · intro _ evs ret h
      simp only [Strategy.generate] at h
      have hp := Except.ok.inj h
      rw [blockGenerate, if_neg hn] at hp
      obtain ⟨h1, -⟩ := Prod.mk.injEq .. ▸ hp
      obtain ⟨e, hlast, he⟩ :=
        getLast_append_offsFirst (onsStrum v (max 0 (s - l)) 0 notes)
          (max 1 d) notes hn
      rw [← h1, lastReleaseTick,
        trimToLastOff_of_last_off _ e hlast he, deltaSum_append,
        deltaSum_onsStrum _ _ _ _ hn, deltaSum_offsFirst _ _ hn]
      have hz : (0 : Int) * ((notes.length : Int) - 1) = 0 := by ring
      rw [hz]
      omega
  | arpeggio v =>
    constructor
    · intro evs ret h
      simp only [Strategy.generate] at h
      have hp := Except.ok.inj h
      rw [arpeggioGenerate, if_neg hn] at hp
      obtain ⟨h1, -⟩ := Prod.mk.injEq .. ▸ hp
      rw [← h1]
      exact wellMatched_arpPairs _ _ _ _
    · intro hsg
      exact hsg.elim
  | guitar v sd =>
    have hsne : sortInts notes ≠ [] := by
      intro hc
      have := sortInts_length notes
      rw [hc] at this
      exact hn (List.length_eq_zero.mp this.symm)
    constructor
    · intro evs ret h
      simp only [Strategy.generate] at h
      have hp := Except.ok.inj h
      rw [guitarGenerate, if_neg hn] at hp
      obtain ⟨h1, -⟩ := Prod.mk.injEq .. ▸ hp
      rw [← h1]
      exact wellMatched_block _ _ _ _ _
    · intro _ evs ret h
      simp only [Strategy.generate] at h
      have hp := Except.ok.inj h
      rw [guitarGenerate, if_neg hn] at hp
      dsimp only at hp
      obtain ⟨h1, -⟩ := Prod.mk.injEq .. ▸ hp
      obtain ⟨e, hlast, he⟩ :=
        getLast_append_offsFirst _ _ (sortInts notes) hsne
      rw [← h1, lastReleaseTick,
        trimToLastOff_of_last_off _ e hlast he, deltaSum_append,
        deltaSum_onsStrum _ _ _ _ hsne, deltaSum_offsFirst _ _ hsne]
      by_cases h1n : 1 < ((sortInts notes).length : Int)
      · rw [if_pos h1n]
        generalize pyInt (sd.mul (PyQ.ofInt TICKS_PER_BEAT)) *
          (((sortInts notes).length : Int) - 1) = A
        omega
      · have hlen1 : ((sortInts notes).length : Int) = 1 := by
          have hpos : 0 < (sortInts notes).length :=
            List.length_pos.mpr hsne
          omega
        rw [if_neg h1n, hlen1]
        have hz : pyInt (sd.mul (PyQ.ofInt TICKS_PER_BEAT)) *
            ((1 : Int) - 1) = 0 := by ring
        rw [hz]
        omega
  | rhythmic v ts =>
    constructor
    · intro evs ret h
      simp only [Strategy.generate] at h
      rw [rhythmicGenerate, if_neg hn] at h
      dsimp only at h
      match hp : rhythmicPairs v
          (Int.fdiv (max 1 d)
            (((if rhythmicPatternIdx ts.1 ts.2 notes.length = [] then [0]
              else rhythmicPatternIdx ts.1 ts.2 notes.length).length : Int)))
          (max 1 ((max 1 d) -
            ((((if rhythmicPatternIdx ts.1 ts.2 notes.length = [] then [0]
              else rhythmicPatternIdx ts.1 ts.2 notes.length).length : Int)) - 1) *
            (Int.fdiv (max 1 d)
              (((if rhythmicPatternIdx ts.1 ts.2 notes.length = [] then [0]
                else rhythmicPatternIdx ts.1 ts.2 notes.length).length : Int)))))
          notes (max 0 (s - l))
          (if rhythmicPatternIdx ts.1 ts.2 notes.length = [] then [0]
            else rhythmicPatternIdx ts.1 ts.2 notes.length) with
      | .error e => rw [hp] at h; exact absurd h (by simp [Except.map])
      | .ok evs0 =>
          rw [hp] at h
          simp only [Except.map] at h
          have hpair := Except.ok.inj h
          obtain ⟨h1, -⟩ := Prod.mk.injEq .. ▸ hpair
          rw [← h1]
          exact wellMatched_rhythmicPairs _ _ _ _ _ _ _ hp
    · intro _ evs ret h
      simp only [Strategy.generate] at h
      rw [rhythmicGenerate, if_neg hn] at h
      dsimp only at h
      match hp : rhythmicPairs v
          (Int.fdiv (max 1 d)
            (((if rhythmicPatternIdx ts.1 ts.2 notes.length = [] then [0]
              else rhythmicPatternIdx ts.1 ts.2 notes.length).length : Int)))
          (max 1 ((max 1 d) -
            ((((if rhythmicPatternIdx ts.1 ts.2 notes.length = [] then [0]
              else rhythmicPatternIdx ts.1 ts.2 notes.length).length : Int)) - 1) *
            (Int.fdiv (max 1 d)
              (((if rhythmicPatternIdx ts.1 ts.2 notes.length = [] then [0]
                else rhythmicPatternIdx ts.1 ts.2 notes.length).length : Int)))))
          notes (max 0 (s - l))
          (if rhythmicPatternIdx ts.1 ts.2 notes.length = [] then [0]
            else rhythmicPatternIdx ts.1 ts.2 notes.length) with
      | .error e => rw [hp] at h; exact absurd h (by simp [Except.map])
      | .ok evs0 =>
          rw [hp] at h
          simp only [Except.map] at h
          have hpair := Except.ok.inj h
          obtain ⟨h1, -⟩ := Prod.mk.injEq .. ▸ hpair
          have hidne : (if rhythmicPatternIdx ts.1 ts.2 notes.length = []
              then [0] else rhythmicPatternIdx ts.1 ts.2 notes.length) ≠
              ([] : List Nat) := by
            by_cases hc : rhythmicPatternIdx ts.1 ts.2 notes.length = []
            · rw [if_pos hc]; simp
            · rw [if_neg hc]; exact hc
          obtain ⟨hds, e, hlast, he⟩ :=
            rhythmicPairs_shape _ _ _ notes _ _ evs0 hidne hp
          rw [← h1, lastReleaseTick,
            trimToLastOff_of_last_off _ e hlast he, hds]
          generalize hA :
            (((if rhythmicPatternIdx ts.1 ts.2 notes.length = [] then [0]
              else rhythmicPatternIdx ts.1 ts.2 notes.length).length : Int) - 1) *
            (Int.fdiv (max 1 d)
              (((if rhythmicPatternIdx ts.1 ts.2 notes.length = [] then [0]
                else rhythmicPatternIdx ts.1 ts.2 notes.length).length : Int)))
            = A
          omega
  | advGuitar v sd pat =>
    constructor
    · intro evs ret h
      simp only [Strategy.generate] at h
      have hp := Except.ok.inj h
      rw [advGuitarGenerate, if_neg hn] at hp
      dsimp only at hp
      obtain ⟨h1, -⟩ := Prod.mk.injEq .. ▸ hp
      rw [← h1]
      exact wellMatched_advLoop _ _ _ _ _ _ _
    · intro hsg
      exact hsg.elim

/-- Counterexample for claim C5 as stated: the arpeggio strategy on the
three-pitch chord 60, 64, 67 with startTick 0, durationTicks 4 and
lastTick 0 places its last release at tick 3, strictly before
startTick + durationTicks = 4, because each pitch gets the integer
division 4 div 3 = 1 and the remainder tick is dropped. -/
theorem C5_arpeggio_span_counterexample :
    (Strategy.arpeggio 64).generate [60, 64, 67] 0 4 0 =
      Except.ok (arpeggioGenerate 64 [60, 64, 67] 0 4 0) ∧
    lastReleaseTick 0 (arpeggioGenerate 64 [60, 64, 67] 0 4 0).1 - 0 = 3 ∧
    ¬ (4 : Int) ≤ 3 := by
  refine ⟨rfl, by decide, by decide⟩

/-- Witness for claim C5 at the block strategy on a single pitch with
duration 1. -/
theorem C5_strategy_contracts_witness :
    (∀ evs ret,
      (Strategy.block 64).generate [60] 0 1 0 = Except.ok (evs, ret) →
      wellMatched evs) ∧
    ((Strategy.block 64).spanGuaranteed →
      ∀ evs ret,
        (Strategy.block 64).generate [60] 0 1 0 = Except.ok (evs, ret) →
        1 ≤ lastReleaseTick 0 evs - 0) :=
  C5_strategy_contracts (Strategy.block 64) [60] 0 1 0 (by decide) (by decide)

/-- A chord-symbol token that resolves to a non-empty pitch list: it
matches the chord pattern, not the note pattern, and the resolver
returns at least one pitch. -/
def resolvesNonempty (t : String) : Bool :=
  isChordTok t && (noteMatch t).isNone &&
    (match _parse_chord t with
     | .ok (_ :: _) => true
     | _ => false)

/-- An event stream without any onset events. -/
def noOnsets (evs : List MidiMsg) : Bool :=
  evs.all (fun e => e.kind != EvKind.on)

theorem noOnsets_append (a b : List MidiMsg) :
    noOnsets (a ++ b) = (noOnsets a && noOnsets b) := by
  simp [noOnsets]

theorem noOnsets_offsFirst (dt : Int) (L : List Int) :
    noOnsets (offsFirst dt L) = true := by
  rw [noOnsets, List.all_eq_true]
  intro e he
  have := offsFirst_kinds dt L e he
  simp [this]

theorem closeChord_chords_noOnsets (st : BState)
    (h : noOnsets st.chords = true) :
    noOnsets (closeChord st).chords = true := by
  rw [closeChord]
  by_cases hca : st.chordActive ≠ []
  · rw [if_pos hca]
    dsimp only
    rw [noOnsets_append, h, noOnsets_offsFirst]
    rfl
  · rw [if_neg hca]
    exact h

theorem closeChord_fields (st : BState) :
    (closeChord st).isRecording = st.isRecording ∧
    (closeChord st).currentMeasure = st.currentMeasure ∧
    (closeChord st).melody = st.melody := by
  rw [closeChord]
  by_cases hca : st.chordActive ≠ []
  · rw [if_pos hca]
    exact ⟨rfl, rfl, rfl⟩
  · rw [if_neg hca]
    exact ⟨rfl, rfl, rfl⟩

theorem directiveStep_fields (st : BState) (tok : String) :
    (directiveStep st tok).chords = st.chords ∧
    (directiveStep st tok).isRecording = st.isRecording ∧
    (directiveStep st tok).currentMeasure = st.currentMeasure := by
  rw [directiveStep]
  by_cases hc : containsSub "CHORD_PATTERN".data (strUpper tok).data = true
  · rw [if_pos hc]
    match splitFirstEq (tok.data.drop 1) with
    | none => exact ⟨rfl, rfl, rfl⟩
    | some (k, v) => exact ⟨rfl, rfl, rfl⟩
  · rw [if_neg hc]
    exact ⟨rfl, rfl, rfl⟩

theorem barlineStep_ok_fields (p : BuildParams) (st st1 : BState)
    (h : barlineStep p st = Except.ok st1) :
    st1.chords = st.chords ∧
    st1.currentMeasure = st.currentMeasure + 1 ∧
    st1.isRecording = decide (p.fromMeasure ≤ st.currentMeasure + 1) := by
  rw [barlineStep] at h
  by_cases hov : (p.beatsPerMeasure.sub st.measureBeats).lt negEps = true
  · rw [if_pos hov] at h
    exact absurd h (by simp)
  · rw [if_neg hov] at h
    by_cases hpad : (epsQ.lt (p.beatsPerMeasure.sub st.measureBeats) &&
        st.isRecording) = true
    · rw [if_pos hpad] at h
      have h1 := Except.ok.inj h
      rw [← h1]
      exact ⟨rfl, rfl, rfl⟩
    · rw [if_neg hpad] at h
      have h1 := Except.ok.inj h
      rw [← h1]
      exact ⟨rfl, rfl, rfl⟩

theorem barlineStep_error_state (p : BuildParams) (st : BState) (e : PyError)
    (st' : BState) (h : barlineStep p st = Except.error (e, st')) :
    st' = st := by
  rw [barlineStep] at h
  by_cases hov : (p.beatsPerMeasure.sub st.measureBeats).lt negEps = true
  · rw [if_pos hov] at h
    exact (Prod.mk.injEq .. ▸ Except.error.inj h).2.symm
  · rw [if_neg hov] at h
    by_cases hpad : (epsQ.lt (p.beatsPerMeasure.sub st.measureBeats) &&
        st.isRecording) = true
    · rw [if_pos hpad] at h
      exact absurd h (by simp)
    · rw [if_neg hpad] at h
      exact absurd h (by simp)

theorem restStep_fields (p : BuildParams) (st : BState) (m : RestTok) :
    (∀ st1, restStep p st m = Except.ok st1 →
      st1.chords = st.chords ∧ st1.isRecording = st.isRecording ∧
      st1.currentMeasure = st.currentMeasure) ∧
    (∀ e st', restStep p st m = Except.error (e, st') → st' = st) := by
  rw [restStep]
  match _beats m.dur m.dots p.unit with
  | .error e =>
      refine ⟨fun st1 h => absurd h (by simp), fun e0 st' h => ?_⟩
      exact (Prod.mk.injEq .. ▸ Except.error.inj h).2.symm
  | .ok beats =>
      refine ⟨fun st1 h => ?_, fun e0 st' h => absurd h (by simp)⟩
      have h1 := Except.ok.inj h
      rw [← h1]
      exact ⟨rfl, rfl, rfl⟩

theorem noteStep_fields (p : BuildParams) (st : BState) (m : NoteTok)
    (rest : List String) :
    (∀ st1 k, noteStep p st m rest = Except.ok (st1, k) →
      st1.chords = st.chords ∧ st1.isRecording = st.isRecording ∧
      st1.currentMeasure = st.currentMeasure) ∧
    (∀ e st', noteStep p st m rest = Except.error (e, st') → st' = st) := by
  constructor
  · intro st1 k h
    rw [noteStep] at h
    cases hbeats : _beats m.dur m.dots p.unit with
    | error e => rw [hbeats] at h; exact absurd h (by simp)
    | ok beats0 =>
      rw [hbeats] at h
      dsimp only at h
      cases hdm : _degree2midi m.deg m.acc (octShiftOf m.oct) p.keyRoot with
      | error e => rw [hdm] at h; exact absurd h (by simp)
      | ok pitch =>
        rw [hdm] at h
        dsimp only at h
        cases hmc : melodyTieCollect p pitch beats0 m.tie rest with
        | error e => rw [hmc] at h; exact absurd h (by simp)
        | ok pr =>
          obtain ⟨beats, kk⟩ := pr
          rw [hmc] at h
          have h1 := (Prod.mk.injEq .. ▸ Except.ok.inj h).1
          rw [← h1]
          exact ⟨rfl, rfl, rfl⟩
  · intro e0 st' h
    rw [noteStep] at h
    cases hbeats : _beats m.dur m.dots p.unit with
    | error e =>
        rw [hbeats] at h
        exact (Prod.mk.injEq .. ▸ Except.error.inj h).2.symm
    | ok beats0 =>
      rw [hbeats] at h
      dsimp only at h
      cases hdm : _degree2midi m.deg m.acc (octShiftOf m.oct) p.keyRoot with
      | error e =>
          rw [hdm] at h
          exact (Prod.mk.injEq .. ▸ Except.error.inj h).2.symm
      | ok pitch =>
        rw [hdm] at h
        dsimp only at h
        cases hmc : melodyTieCollect p pitch beats0 m.tie rest with
        | error e =>
            rw [hmc] at h
            exact (Prod.mk.injEq .. ▸ Except.error.inj h).2.symm
        | ok pr =>
          obtain ⟨beats, kk⟩ := pr
          rw [hmc] at h
          exact absurd h (by simp)

/-- Every token the melody tie merge consumes matches the note
pattern. -/
theorem melodyTieCollect_consumed (p : BuildParams) (pitch : Int) :
    ∀ (L : List String) (b : PyQ) (tie : Bool) (r : PyQ) (kk : Nat),
      melodyTieCollect p pitch b tie L = Except.ok (r, kk) →
      ∀ j, j < kk → ∃ u, L.get? j = some u ∧ (noteMatch u).isSome = true := by
  intro L
  induction L with
  | nil =>
    intro b tie r kk h j hj
    cases tie with
    | false =>
        rw [melodyTieCollect] at h
        have := (Prod.mk.injEq .. ▸ Except.ok.inj h).2
        omega
    | true =>
        rw [melodyTieCollect] at h
        have := (Prod.mk.injEq .. ▸ Except.ok.inj h).2
        omega
  | cons t rest ih =>
    intro b tie r kk h j hj
    cases tie with
    | false =>
        rw [melodyTieCollect] at h
        have := (Prod.mk.injEq .. ▸ Except.ok.inj h).2
        omega
    | true =>
        rw [melodyTieCollect] at h
        match hnm : noteMatch t with
        | none =>
            rw [hnm] at h
            have := (Prod.mk.injEq .. ▸ Except.ok.inj h).2
            omega
        | some nxt =>
            rw [hnm] at h
            simp only [Except.bind, Bind.bind] at h
            match hdm : _degree2midi nxt.deg nxt.acc (octShiftOf nxt.oct)
                p.keyRoot with
            | .error e => rw [hdm] at h; exact absurd h (by simp)
            | .ok npitch =>
                rw [hdm] at h
                dsimp only at h
                by_cases hne : npitch ≠ pitch
                · rw [if_pos hne] at h
                  simp only [pure, Except.pure] at h
                  have := (Prod.mk.injEq .. ▸ Except.ok.inj h).2
                  omega
                · rw [if_neg hne] at h
                  match hb : _beats nxt.dur nxt.dots p.unit with
                  | .error e => rw [hb] at h; exact absurd h (by simp)
                  | .ok bb =>
                      rw [hb] at h
                      dsimp only at h
                      match hrec : melodyTieCollect p pitch (b.add bb)
                          nxt.tie rest with
                      | .error e => rw [hrec] at h; exact absurd h (by simp)
                      | .ok (r2, k2) =>
                          rw [hrec] at h
                          simp only [pure, Except.pure] at h
                          obtain ⟨-, hk⟩ := Prod.mk.injEq .. ▸ Except.ok.inj h
                          cases j with
                          | zero =>
                              exact ⟨t, rfl, by rw [hnm]; rfl⟩
                          | succ j0 =>
                              obtain ⟨u, hu1, hu2⟩ :=
                                ih (b.add bb) nxt.tie r2 k2 hrec j0 (by omega)
                              exact ⟨u, by simpa using hu1, hu2⟩

/-- Whatever the chord branch does, the resulting chord stream (in the
new state or in the error state) gains no onset, and the recording flag
and measure counter are untouched. -/
theorem chordStep_fields (p : BuildParams) (st : BState) (tok : String)
    (rest : List String) (h : noOnsets st.chords = true) :
    (∀ st1, chordStep p st tok rest = Except.ok st1 →
      noOnsets st1.chords = true ∧ st1.isRecording = st.isRecording ∧
      st1.currentMeasure = st.currentMeasure) ∧
    (∀ e st', chordStep p st tok rest = Except.error (e, st') →
      noOnsets st'.chords = true) := by
  have hclose := closeChord_chords_noOnsets st h
  have hcf := closeChord_fields st
  rw [chordStep]
  cases hdur :
      (match findNextChordIdx rest with
        | some j => (spanLoop p.unit (rest.take j)).map (fun d => max 1 d)
        | none =>
            Except.ok (max 1 (pyInt (p.beatsPerMeasure.mul
              (PyQ.ofInt TICKS_PER_BEAT))))) with
  | error e =>
      refine ⟨fun st1 hh => absurd hh (by simp), fun e0 st' hh => ?_⟩
      have := (Prod.mk.injEq .. ▸ Except.error.inj hh).2
      rw [← this]
      exact hclose
  | ok dur =>
      dsimp only
      cases hpc : _parse_chord tok with
      | error e =>
          refine ⟨fun st1 hh => absurd hh (by simp), fun e0 st' hh => ?_⟩
          have := (Prod.mk.injEq .. ▸ Except.error.inj hh).2
          rw [← this]
          exact hclose
      | ok notes =>
          dsimp only
          by_cases hne : notes ≠ []
          · rw [if_pos hne]
            cases hft : fromToTickCheck p (closeChord st) (closeChord st).curTick
                dur (findNextChordIdx rest).isSome with
            | error e =>
                refine ⟨fun st1 hh => absurd hh (by simp),
                  fun e0 st' hh => ?_⟩
                have := (Prod.mk.injEq .. ▸ Except.error.inj hh).2
                rw [← this]
                exact hclose
            | ok u =>
                rw [if_neg (by decide :
                  ¬ buildCallArgCount = generateEventsParamCount)]
                refine ⟨fun st1 hh => absurd hh (by simp),
                  fun e0 st' hh => ?_⟩
                have := (Prod.mk.injEq .. ▸ Except.error.inj hh).2
                rw [← this]
                exact hclose
          · rw [if_neg hne]
            refine ⟨fun st1 hh => ?_, fun e0 st' hh => absurd hh (by simp)⟩
            have h1 := Except.ok.inj hh
            rw [← h1]
            exact ⟨hclose, hcf.1, hcf.2.1⟩

/-- The chord branch on a token that resolves to a non-empty pitch list
always raises (a span or resolver or division error, or the TypeError of
the seven-argument call). -/
theorem chordStep_resolving_errors (p : BuildParams) (st : BState)
    (tok : String) (rest : List String)
    (hres : resolvesNonempty tok = true) :
    ∀ st1, chordStep p st tok rest ≠ Except.ok st1 := by
  intro st1
  have hpc : ∃ x xs, _parse_chord tok = Except.ok (x :: xs) := by
    rw [resolvesNonempty] at hres
    simp only [Bool.and_eq_true] at hres
    obtain ⟨-, hmatch⟩ := hres
    match hp : _parse_chord tok with
    | .ok (x :: xs) => exact ⟨x, xs, rfl⟩
    | .ok [] => rw [hp] at hmatch; exact absurd hmatch (by simp)
    | .error e => rw [hp] at hmatch; exact absurd hmatch (by simp)
  obtain ⟨x, xs, hp⟩ := hpc
  rw [chordStep]
  cases hdur :
      (match findNextChordIdx rest with
        | some j => (spanLoop p.unit (rest.take j)).map (fun d => max 1 d)
        | none =>
            Except.ok (max 1 (pyInt (p.beatsPerMeasure.mul
              (PyQ.ofInt TICKS_PER_BEAT))))) with
  | error e => simp
  | ok dur =>
      dsimp only
      rw [hp]
      dsimp only
      rw [if_pos (by simp : (x :: xs : List Int) ≠ [])]
      cases hft : fromToTickCheck p (closeChord st) (closeChord st).curTick
          dur (findNextChordIdx rest).isSome with
      | error e => simp
      | ok u =>
          rw [if_neg (by decide :
            ¬ buildCallArgCount = generateEventsParamCount)]
          simp

/-- A resolving chord token begins with a chord letter A to G in either
case. -/
theorem resolvesNonempty_head (t : String)
    (h : resolvesNonempty t = true) :
    ∃ c, t.data.head? = some c ∧
      ((65 ≤ c.toNat ∧ c.toNat ≤ 71) ∨ (97 ≤ c.toNat ∧ c.toNat ≤ 103)) := by
  rw [resolvesNonempty] at h
  simp only [Bool.and_eq_true] at h
  obtain ⟨⟨hchord, -⟩, hres⟩ := h
  rw [isChordTok, Bool.or_eq_true] at hchord
  rcases hchord with hm | hO
  · cases hd : t.data with
    | nil => rw [hd] at hm; exact absurd hm (by simp)
    | cons c rest =>
        rw [hd] at hm
        simp only [Bool.and_eq_true, Bool.or_eq_true,
          decide_eq_true_eq] at hm
        exact ⟨c, rfl, by tauto⟩
  · have ht : t = "O" := by simpa using hO
    rw [ht] at hres
    exact absurd hres (by decide)

/-- A rest-matching token begins with R or 0. -/
theorem restMatch_head (t : String) (m : RestTok)
    (h : restMatch t = some m) :
    ∃ c, t.data.head? = some c ∧ (c = 'R' ∨ c = '0') := by
  rw [restMatch] at h
  cases hd : t.data with
  | nil => rw [hd] at h; exact absurd h (by simp)
  | cons c rest =>
      rw [hd] at h
      dsimp only at h
      by_cases hc : c = 'R' ∨ c = '0'
      · exact ⟨c, rfl, hc⟩
      · rw [if_neg hc] at h
        exact absurd h (by simp)

/-- A resolving chord token does not match the rest pattern. -/
theorem resolvesNonempty_not_rest (t : String)
    (h : resolvesNonempty t = true) : restMatch t = none := by
  match hr : restMatch t with
  | none => rfl
  | some m =>
      obtain ⟨c, hc1, hc2⟩ := resolvesNonempty_head t h
      obtain ⟨c2, hc3, hc4⟩ := restMatch_head t m hr
      rw [hc1] at hc3
      have : c = c2 := Option.some.inj hc3
      rw [← this] at hc4
      rcases hc4 with rfl | rfl
      · exact absurd hc2 (by decide)
      · exact absurd hc2 (by decide)

/-- A resolving chord token does not start with a hash. -/
theorem resolvesNonempty_not_hash (t : String)
    (h : resolvesNonempty t = true) : ¬ t.data.head? = some '#' := by
  obtain ⟨c, hc1, hc2⟩ := resolvesNonempty_head t h
  intro hcontra
  rw [hc1] at hcontra
  have : c = '#' := Option.some.inj hcontra
  rw [this] at hc2
  revert hc2
  decide

/-- A resolving chord token does not match the note pattern. -/
theorem resolvesNonempty_not_note (t : String)
    (h : resolvesNonempty t = true) : noteMatch t = none := by
  rw [resolvesNonempty] at h
  simp only [Bool.and_eq_true] at h
  exact Option.isNone_iff_eq_none.mp h.1.2

/-- The chord stream never gains an onset across the whole token loop:
the only place the source would append chord onsets is the strategy call,
which always raises before emitting. -/
theorem buildLoopF_noOnsets (p : BuildParams) :
    ∀ (f : Nat) (toks : List String) (st : BState),
      noOnsets st.chords = true →
      noOnsets (buildState (buildLoopF p f toks st)).chords = true := by
  intro f
  induction f with
  | zero => intro toks st h; exact h
  | succ f ih =>
    intro toks st h
    cases toks with
    | nil => exact h
    | cons tok rest =>
      rw [buildLoopF]
      by_cases hbr : loopBreak p st = true
      · rw [if_pos hbr]; exact h
      · rw [if_neg hbr]
        by_cases hhash : tok.data.head? = some '#'
        · rw [if_pos hhash]
          exact ih rest _ (by rw [(directiveStep_fields st tok).1]; exact h)
        · rw [if_neg hhash]
          by_cases hbar : tok = "|" ∨ tok = "||"
          · rw [if_pos hbar]
            cases hbl : barlineStep p st with
            | error e =>
                obtain ⟨e0, st'⟩ := e
                have heq := barlineStep_error_state p st e0 st' hbl
                show noOnsets st'.chords = true
                rw [heq]
                exact h
            | ok st1 =>
                exact ih rest st1
                  (by rw [(barlineStep_ok_fields p st st1 hbl).1]; exact h)
          · rw [if_neg hbar]
            by_cases hrec : st.isRecording = false
            · rw [if_pos hrec]
              exact ih rest st h
            · rw [if_neg hrec]
              cases hrm : restMatch tok with
              | some m =>
                  dsimp only
                  cases hrs : restStep p st m with
                  | error e =>
                      obtain ⟨e0, st'⟩ := e
                      have heq := (restStep_fields p st m).2 e0 st' hrs
                      show noOnsets st'.chords = true
                      rw [heq]
                      exact h
                  | ok st1 =>
                      exact ih rest st1
                        (by rw [((restStep_fields p st m).1 st1 hrs).1]
                            exact h)
              | none =>
                  dsimp only
                  by_cases hch : (isChordTok tok && (noteMatch tok).isNone)
                      = true
                  · rw [if_pos hch]
                    cases hcs : chordStep p st tok rest with
                    | error e =>
                        obtain ⟨e0, st'⟩ := e
                        show noOnsets st'.chords = true
                        exact (chordStep_fields p st tok rest h).2 e0 st' hcs
                    | ok st1 =>
                        exact ih rest st1
                          ((chordStep_fields p st tok rest h).1 st1 hcs).1
                  · rw [if_neg hch]
                    cases hnm : noteMatch tok with
                    | none => exact h
                    | some m =>
                        dsimp only
                        cases hns : noteStep p st m rest with
                        | error e =>
                            obtain ⟨e0, st'⟩ := e
                            have heq := (noteStep_fields p st m rest).2 e0 st' hns
                            show noOnsets st'.chords = true
                            rw [heq]
                            exact h
                        | ok pr =>
                            obtain ⟨st1, k⟩ := pr
                            exact ih (rest.drop k) st1
                              (by rw [((noteStep_fields p st m rest).1
                                  st1 k hns).1]
                                  exact h)

/-- A successful chord branch (only possible for an empty resolution)
keeps the recording flag and measure counter. -/
theorem chordStep_ok_fields (p : BuildParams) (st : BState) (tok : String)
    (rest : List String) :
    ∀ st1, chordStep p st tok rest = Except.ok st1 →
      st1.isRecording = st.isRecording ∧
      st1.currentMeasure = st.currentMeasure := by
  have hcf := closeChord_fields st
  intro st1 hh
  rw [chordStep] at hh
  cases hdur :
      (match findNextChordIdx rest with
        | some j => (spanLoop p.unit (rest.take j)).map (fun d => max 1 d)
        | none =>
            Except.ok (max 1 (pyInt (p.beatsPerMeasure.mul
              (PyQ.ofInt TICKS_PER_BEAT))))) with
  | error e =>
      rw [hdur] at hh
      exact absurd hh (by simp)
  | ok dur =>
      rw [hdur] at hh
      dsimp only at hh
      cases hpc : _parse_chord tok with
      | error e =>
          rw [hpc] at hh
          exact absurd hh (by simp)
      | ok notes =>
          rw [hpc] at hh
          dsimp only at hh
          by_cases hne : notes ≠ []
          · rw [if_pos hne] at hh
            cases hft : fromToTickCheck p (closeChord st)
                (closeChord st).curTick dur (findNextChordIdx rest).isSome with
            | error e =>
                rw [hft] at hh
                exact absurd hh (by simp)
            | ok u =>
                rw [hft] at hh
                rw [if_neg (by decide :
                  ¬ buildCallArgCount = generateEventsParamCount)] at hh
                exact absurd hh (by simp)
          · rw [if_neg hne] at hh
            have h1 := Except.ok.inj hh
            rw [← h1]
            exact ⟨hcf.1, hcf.2.1⟩

/-- The extra tokens a successful note branch consumes all match the
note pattern. -/
theorem noteStep_ok_consumed (p : BuildParams) (st : BState) (m : NoteTok)
    (rest : List String) :
    ∀ st1 kk, noteStep p st m rest = Except.ok (st1, kk) →
      ∀ j, j < kk → ∃ u, rest.get? j = some u ∧ (noteMatch u).isSome = true := by
  intro st1 kk h
  rw [noteStep] at h
  cases hbeats : _beats m.dur m.dots p.unit with
  | error e => rw [hbeats] at h; exact absurd h (by simp)
  | ok beats0 =>
    rw [hbeats] at h
    dsimp only at h
    cases hdm : _degree2midi m.deg m.acc (octShiftOf m.oct) p.keyRoot with
    | error e => rw [hdm] at h; exact absurd h (by simp)
    | ok pitch =>
      rw [hdm] at h
      dsimp only at h
      cases hmc : melodyTieCollect p pitch beats0 m.tie rest with
      | error e => rw [hmc] at h; exact absurd h (by simp)
      | ok pr =>
        obtain ⟨beats, k0⟩ := pr
        rw [hmc] at h
        have hk := (Prod.mk.injEq .. ▸ Except.ok.inj h).2
        rw [← hk]
        exact melodyTieCollect_consumed p pitch rest beats0 m.tie beats k0 hmc

/-- The header parameters carry the measure window they were given. -/
theorem headerParams_window (meta : List (String × String)) (fm : Int)
    (tm : Option Int) :
    ∀ p, headerParams meta fm tm = Except.ok p →
      p.fromMeasure = fm ∧ p.toMeasure = tm := by
  intro p h
  rw [headerParams] at h
  simp only [Except.bind, Bind.bind, pure, Except.pure, throw, throwThe,
    MonadExceptOf.throw] at h
  repeat' split at h
  all_goals cases h
  all_goals exact ⟨rfl, rfl⟩

/-- Whenever some token of the list resolves to a non-empty chord, the
token loop cannot finish normally: every path either errors earlier or
reaches the chord branch, whose strategy call always raises.  The
recording flag and the measure-window invariant are maintained across
every step so the chord token cannot be skipped. -/
theorem buildLoopF_resolving_errors (p : BuildParams)
    (hto : p.toMeasure = none) :
    ∀ (f : Nat) (toks : List String) (st : BState) (k : Nat),
      toks.length < f →
      st.isRecording = true →
      p.fromMeasure ≤ st.currentMeasure + 1 →
      (∃ t, toks.get? k = some t ∧ resolvesNonempty t = true) →
      ∀ stf, buildLoopF p f toks st ≠ Except.ok stf := by
  intro f
  induction f with
  | zero =>
      intro toks st k hf
      exact absurd hf (Nat.not_lt_zero _)
  | succ f ih =>
    intro toks st k hf hrec hfm hres stf
    cases toks with
    | nil =>
        obtain ⟨t, ht, -⟩ := hres
        simp at ht
    | cons tok rest =>
      rw [buildLoopF]
      have hbrk : loopBreak p st = false := by simp [loopBreak, hto]
      rw [if_neg (by rw [hbrk]; simp : ¬ loopBreak p st = true)]
      cases k with
      | zero =>
          obtain ⟨t, ht, htres⟩ := hres
          have htok : t = tok := (Option.some.inj ht).symm
          subst htok
          rw [if_neg (resolvesNonempty_not_hash t htres)]
          have hbar : ¬(t = "|" ∨ t = "||") := by
            obtain ⟨c, hc1, hc2⟩ := resolvesNonempty_head t htres
            intro hcontra
            have hc : ('|' : Char) = c := by
              rcases hcontra with rfl | rfl
              · exact Option.some.inj hc1
              · exact Option.some.inj hc1
            rw [← hc] at hc2
            revert hc2
            decide
          rw [if_neg hbar]
          rw [if_neg (by rw [hrec]; simp : ¬ st.isRecording = false)]
          rw [resolvesNonempty_not_rest t htres]
          dsimp only
          have hch : (isChordTok t && (noteMatch t).isNone) = true := by
            rw [resolvesNonempty] at htres
            simp only [Bool.and_eq_true] at htres ⊢
            exact ⟨htres.1.1, htres.1.2⟩
          rw [if_pos hch]
          cases hcs : chordStep p st t rest with
          | error e => simp
          | ok st1 =>
              exact absurd hcs (chordStep_resolving_errors p st t rest htres st1)
      | succ j =>
          obtain ⟨t, ht, htres⟩ := hres
          have ht' : rest.get? j = some t := ht
          have hf' : rest.length < f := by
            simp only [List.length_cons] at hf
            omega
          by_cases hhash : tok.data.head? = some '#'
          · rw [if_pos hhash]
            have hfl := directiveStep_fields st tok
            exact ih rest (directiveStep st tok) j hf'
              (hfl.2.1.trans hrec) (by rw [hfl.2.2]; exact hfm)
              ⟨t, ht', htres⟩ stf
          · rw [if_neg hhash]
            by_cases hbar : tok = "|" ∨ tok = "||"
            · rw [if_pos hbar]
              cases hbl : barlineStep p st with
              | error e => simp
              | ok st1 =>
                  have hfl := barlineStep_ok_fields p st st1 hbl
                  have hrec1 : st1.isRecording = true := by
                    rw [hfl.2.2]
                    exact decide_eq_true hfm
                  have hfm1 : p.fromMeasure ≤ st1.currentMeasure + 1 := by
                    rw [hfl.2.1]
                    omega
                  exact ih rest st1 j hf' hrec1 hfm1 ⟨t, ht', htres⟩ stf
            · rw [if_neg hbar]
              rw [if_neg (by rw [hrec]; simp : ¬ st.isRecording = false)]
              cases hrm : restMatch tok with
              | some m =>
                  dsimp only
                  cases hrs : restStep p st m with
                  | error e => simp
                  | ok st1 =>
                      have hfl := (restStep_fields p st m).1 st1 hrs
                      exact ih rest st1 j hf' (hfl.2.1.trans hrec)
                        (by rw [hfl.2.2]; exact hfm) ⟨t, ht', htres⟩ stf
              | none =>
                  dsimp only
                  by_cases hch : (isChordTok tok && (noteMatch tok).isNone)
                      = true
                  · rw [if_pos hch]
                    cases hcs : chordStep p st tok rest with
                    | error e => simp
                    | ok st1 =>
                        have hfl := chordStep_ok_fields p st tok rest st1 hcs
                        exact ih rest st1 j hf' (hfl.1.trans hrec)
                          (by rw [hfl.2]; exact hfm) ⟨t, ht', htres⟩ stf
                  · rw [if_neg hch]
                    cases hnm : noteMatch tok with
                    | none => simp
                    | some m =>
                        dsimp only
                        cases hns : noteStep p st m rest with
                        | error e => simp
                        | ok pr =>
                            obtain ⟨st1, kk⟩ := pr
                            have hfl := (noteStep_fields p st m rest).1
                              st1 kk hns
                            have hkk : kk ≤ j := by
                              by_contra hlt
                              push_neg at hlt
                              obtain ⟨u, hu, hun⟩ :=
                                noteStep_ok_consumed p st m rest st1 kk hns
                                  j hlt
                              rw [ht'] at hu
                              have hut : u = t := (Option.some.inj hu).symm
                              rw [hut, resolvesNonempty_not_note t htres]
                                at hun
                              exact absurd hun (by simp)
                            have hdrop : (rest.drop kk).get? (j - kk)
                                = some t := by
                              rw [List.get?_drop, Nat.add_sub_cancel' hkk]
                              exact ht'
                            have hlen : (rest.drop kk).length < f := by
                              rw [List.length_drop]
                              omega
                            exact ih (rest.drop kk) st1 (j - kk) hlen
                              (hfl.2.1.trans hrec)
                              (by rw [hfl.2.2]; exact hfm)
                              ⟨t, hdrop, htres⟩ stf

/-- C2: for every input containing a chord-symbol token that resolves to
a non-empty pitch list, build_midi (at its default measure window) raises
an error before emitting any chord onset events: the strategy call passes
seven positional arguments while every strategy's generate_events accepts
five, so the call raises and the chord stream of the state at the error
holds no onsets. -/
theorem C2_chord_call_raises (meta : List (String × String))
    (toks : List String)
    (h : ∃ k t, toks.get? k = some t ∧ resolvesNonempty t = true) :
    (∀ st, buildMidiDefault meta toks ≠ Except.ok st) ∧
    noOnsets (buildState (buildMidiDefault meta toks)).chords = true := by
  obtain ⟨k, t, hk, ht⟩ := h
  rw [buildMidiDefault, buildMidi]
  cases hhp : headerParams meta 0 none with
  | error e =>
      dsimp only
      exact ⟨fun st => by simp, rfl⟩
  | ok p =>
      dsimp only
      have hw := headerParams_window meta 0 none p hhp
      have hloop := buildLoopF_resolving_errors p hw.2
        (toks.length + 1) toks (initState p) k
        (by omega)
        (by simp [initState, hw.1])
        (by simp [initState, hw.1])
        ⟨t, hk, ht⟩
      cases hbl : buildLoopF p (toks.length + 1) toks (initState p) with
      | ok st => exact absurd hbl (hloop st)
      | error e =>
          dsimp only
          have hno := buildLoopF_noOnsets p (toks.length + 1) toks
            (initState p) rfl
          rw [hbl] at hno
          exact ⟨fun st => by simp, hno⟩

theorem C2_chord_call_raises_witness :
    (∃ k t, ["C"].get? k = some t ∧ resolvesNonempty t = true) ∧
    ((∀ st, buildMidiDefault [] ["C"] ≠ Except.ok st) ∧
     noOnsets (buildState (buildMidiDefault [] ["C"])).chords = true) :=
  ⟨⟨0, "C", rfl, by decide⟩,
   C2_chord_call_raises [] ["C"] ⟨0, "C", rfl, by decide⟩⟩
